import Mathlib

/-!
# gok: a bounded-concurrency task scheduler

A shallow embedding of `gok.go` and `bus.go`.

* Sequential code (`gokit.Execute`, `wrapGokitFunc`, `NewErrorBus`, `NewGok`, the
  atomic counter helpers) is transcribed as Lean functions.
* The concurrent part is a labelled transition system.  Every goroutine is a
  `Thread` whose constructor is its program counter together with its live
  local variables; `step` performs one atomic action of one goroutine.  The
  granularity is one shared-memory access per step: a channel operation, an
  atomic add / load / compare-and-swap, the begin or the end of the unlocked
  map read of `execute`, or the mutex-protected block of `AddGokit` (atomic
  with respect to every other such block because of `gok.lock`).
* Machine integers are `Nat` with explicit reduction modulo `2 ^ 32`.
* `*ErrorBus` pointers are addresses into `System.heap`.
* `System.submitted` and `System.published` are history variables: they are
  written by `step` but never read by it.
* A task is immutable: `Tag()` and `Identifier()` are constants and
  `Execute()` is a terminating function of the task.
* `execute` reads the map `errorBuses` without holding `gok.lock`, so the read
  is not one atomic action: it begins at `exeLookup` and ends at
  `exeReading`, and a locked block that inserts an entry in between is a
  concurrent write.  The read then either still finds the entry (`step`),
  or comes back with nil (`raceMiss`), or the runtime stops the process with
  `fatal error: concurrent map read and map write` (`fatalRace`): the run
  ends at that state, which has no successor.
* Time is not modelled: `time.After` may fire whenever the queue is empty.
-/

namespace GokSched

/-! ## Tasks (`gok.go`, lines 21-61) -/

/-- A Go `error` value: `none` is `nil`. -/
abbrev GoError := Option String

/-- Source: `type GokitFunc func() error`. -/
abbrev GokitFunc := Unit → GoError

/-- A value of the interface `Gokit`.  A task is immutable once built, so the
two string methods are constant. -/
structure Gokit where
  Execute : Unit → GoError
  Identifier : String
  Tag : String

/-- Source: `type gokit struct`; `executor` may be the `nil` function. -/
structure gokit where
  identifier : String
  tag : String
  executor : Option GokitFunc

/-- Source: `func (gkt *gokit) Execute() error`. -/
def gokit.Execute (gkt : gokit) : GoError :=
  match gkt.executor with
  | none => none
  | some f => f ()

/-- Source: `func (gkt *gokit) Identifier() string`. -/
def gokit.Identifier (gkt : gokit) : String := gkt.identifier

/-- Source: `func (gkt *gokit) Tag() string`. -/
def gokit.Tag (gkt : gokit) : String := gkt.tag

/-- The interface value whose dynamic type is `*gokit`. -/
def gokit.toGokit (gkt : gokit) : Gokit :=
  { Execute := fun _ => gkt.Execute, Identifier := gkt.Identifier, Tag := gkt.Tag }

/-- Source: `func (wrapper *gokitFuncWrapper) wrapGokitFunc(f, tag, identifier) Gokit`. -/
def wrapGokitFunc (f : Option GokitFunc) (tag identifier : String) : Gokit :=
  gokit.toGokit { identifier := identifier, tag := tag, executor := f }

/-! ## Error buses (`bus.go`) -/

/-- Source: `defaultErrorBusChanCapacity`. -/
def defaultErrorBusChanCapacity : Nat := 100

/-- Source: `type GokError struct`. -/
structure GokError where
  Identifier : String
  Err : GoError
  deriving DecidableEq

/-- Source: `type ErrorBus struct`; `ch` is the content of the buffered channel, oldest
element first. -/
structure ErrorBus where
  tag : String
  ch : List GokError
  deriving DecidableEq

/-- Source: `func (eb *ErrorBus) Tag() string`. -/
def ErrorBus.Tag (eb : ErrorBus) : String := eb.tag

/-- Source: `func NewErrorBus(tag string) *ErrorBus`: the freshly allocated object. -/
def NewErrorBus (tag : String) : ErrorBus := { tag := tag, ch := [] }

/-- Source: `func (eb *ErrorBus) Add(err *GokError)`: the send `eb.ch <- err`; `none`
when the buffer is full and the sender has to wait. -/
def ErrorBus.Add (eb : ErrorBus) (err : GokError) : Option ErrorBus :=
  if eb.ch.length < defaultErrorBusChanCapacity then
    some { eb with ch := eb.ch ++ [err] }
  else none

/-- Source: `func (eb *ErrorBus) Next() *GokError`: the receive `<- eb.ch`; `none` when
the buffer is empty and the receiver has to wait. -/
def ErrorBus.Next (eb : ErrorBus) : Option (GokError × ErrorBus) :=
  match eb.ch with
  | [] => none
  | e :: rest => some (e, { eb with ch := rest })

/-! ## The scheduler object (`gok.go`, lines 63-124) -/

/-- Source: `type Gok struct`.  `gokitQueue` is the buffer of the channel, oldest
element first.  `pause`, `restart` and `shutdown` are unbuffered channels of
empty structs: each is represented by the number of goroutines blocked in a
send on it.  `errorBuses` is the map from tag to bus address.  The mutex and
the stateless wrapper carry no data. -/
structure Gok where
  capacity : Nat
  concurrency : Nat
  semaphore : Nat
  runningGokitNum : Nat
  waitingGokitNum : Nat
  gokitQueue : List Gokit
  pause : Nat
  restart : Nat
  shutdown : Nat
  errorBuses : List (String × Nat)

/-- Source: `func NewGok(capacity uint, concurrency uint32) *Gok`. -/
def NewGok (capacity concurrency : Nat) : Gok :=
  { capacity := capacity, concurrency := concurrency, semaphore := 0,
    runningGokitNum := 0, waitingGokitNum := 0, gokitQueue := [],
    pause := 0, restart := 0, shutdown := 0, errorBuses := [] }

/-- Source: `func (gok *Gok) increaseNum(addr *uint32)`, that is
`atomic.AddUint32(addr, uint32(1))`, as a function of the value at `addr`. -/
def increaseNum (x : Nat) : Nat := (x + 1) % 4294967296

/-- Source: `func (gok *Gok) decreaseNum(addr *uint32)`, that is
`atomic.AddUint32(addr, ^uint32(0))`, as a function of the value at `addr`;
the delta `^uint32(0)` is `4294967295`. -/
def decreaseNum (x : Nat) : Nat := (4294967295 + x) % 4294967296

/-- Source: `func (gok *Gok) increaseRunningGokitNum()`. -/
@[simp]
def Gok.increaseRunningGokitNum (gok : Gok) : Gok :=
  { gok with runningGokitNum := increaseNum gok.runningGokitNum }

/-- Source: `func (gok *Gok) decreaseRunningGokitNum()`. -/
@[simp]
def Gok.decreaseRunningGokitNum (gok : Gok) : Gok :=
  { gok with runningGokitNum := decreaseNum gok.runningGokitNum }

/-- Source: `func (gok *Gok) increaseWaitingGokitNum()`. -/
@[simp]
def Gok.increaseWaitingGokitNum (gok : Gok) : Gok :=
  { gok with waitingGokitNum := increaseNum gok.waitingGokitNum }

/-- Source: `func (gok *Gok) decreaseWaitingGokitNum()`. -/
@[simp]
def Gok.decreaseWaitingGokitNum (gok : Gok) : Gok :=
  { gok with waitingGokitNum := decreaseNum gok.waitingGokitNum }

/-- Source: `func (gok *Gok) release()`. -/
@[simp]
def Gok.release (gok : Gok) : Gok :=
  { gok with semaphore := decreaseNum gok.semaphore }

/-- The second statement of `func (gok *Gok) acquire()`:
`atomic.CompareAndSwapUint32(&gok.semaphore, semaphore, semaphore+1)` with the
value `semaphore` loaded by the first statement. -/
@[simp]
def Gok.acquireCas (gok : Gok) (semaphore : Nat) : Gok :=
  { gok with
    semaphore :=
      if gok.semaphore = semaphore then (semaphore + 1) % 4294967296 else gok.semaphore }

/-- Map read `m[k]`; `none` is the zero value `nil` (and `ok = false`). -/
def mapGet (m : List (String × Nat)) (k : String) : Option Nat :=
  match m with
  | [] => none
  | (k', v) :: rest => if k' = k then some v else mapGet rest k

/-- Map write `m[k] = v`. -/
def mapSet (m : List (String × Nat)) (k : String) (v : Nat) : List (String × Nat) :=
  match m with
  | [] => [(k, v)]
  | (k', v') :: rest => if k' = k then (k, v) :: rest else (k', v') :: mapSet rest k v

/-! ## Goroutines -/

/-- Control points of the goroutines that run scheduler code.

* `add*`: a call of `AddGokit` or `AddGokitFunc` after its locked block, with
  the task `i` and the local `errBus`;
* `run*`: the goroutine started by `Run`;
* `exe*`: a goroutine started by `go gok.execute(gkt)`. -/
inductive Thread where
  /-- at `gok.gokitQueue <- i` -/
  | addSend (i : Gokit) (errBus : Nat)
  /-- at `gok.increaseWaitingGokitNum()` -/
  | addCount (i : Gokit) (errBus : Nat)
  /-- after `return errBus` -/
  | addDone (i : Gokit) (errBus : Nat)
  /-- at the outer `select` under `START` -/
  | runSelect
  /-- at the inner `select` of the `default` branch -/
  | runPoll
  /-- in `acquire`, at `atomic.LoadUint32` -/
  | runAcquire (gkt : Gokit)
  /-- in `acquire`, at `atomic.CompareAndSwapUint32` with the loaded value -/
  | runCas (gkt : Gokit) (semaphore : Nat)
  /-- at `go gok.execute(gkt)` -/
  | runGo (gkt : Gokit)
  /-- at `<- gok.restart` under `PAUSE` -/
  | runPaused
  /-- after `return` -/
  | runDone
  /-- at `gok.decreaseWaitingGokitNum()` -/
  | exeStart (gkt : Gokit)
  /-- at `gok.increaseRunningGokitNum()` -/
  | exeIncRunning (gkt : Gokit)
  /-- in `gkt.Execute()` -/
  | exeCall (gkt : Gokit)
  /-- at `gok.decreaseRunningGokitNum()` -/
  | exeDecRunning (gkt : Gokit) (err : GoError)
  /-- at `errBus := gok.errorBuses[gkt.Tag()]`, before the map read -/
  | exeLookup (gkt : Gokit) (err : GoError)
  /-- inside the map read of `errBus := gok.errorBuses[gkt.Tag()]`, which
  began when the map was `seen` -/
  | exeReading (gkt : Gokit) (err : GoError) (seen : List (String × Nat))
  /-- at `errBus.Add(...)` with a non-nil `errBus` -/
  | exeAdd (gkt : Gokit) (err : GoError) (errBus : Nat)
  /-- at `gok.release()` -/
  | exeRelease (gkt : Gokit)
  /-- after the return of `execute` -/
  | exeDone (gkt : Gokit)

/-- One entry of the publication history: the goroutine executing `task`
completed `errBus.Add(outcome)` on the bus at address `bus`. -/
structure Published where
  task : Gokit
  bus : Nat
  outcome : GokError

/-- The whole program state.  `submitted` lists the tasks in the order in which
their sends on `gokitQueue` completed, `published` the completed `Add` calls
in order. -/
structure System where
  gok : Gok
  heap : List ErrorBus
  threads : List Thread
  submitted : List Gokit
  published : List Published

/-- The state right after `NewGok(capacity, concurrency)`. -/
def System.init (capacity concurrency : Nat) : System :=
  { gok := NewGok capacity concurrency, heap := [], threads := [],
    submitted := [], published := [] }

/-- The block of `AddGokit` / `AddGokitFunc` between `gok.lock.Lock()` and
`gok.lock.Unlock()`: look the tag up and create and register a bus when it is
absent.  Returns the local `errBus`. -/
def lockedGetOrCreate (tag : String) (s : System) : Nat × System :=
  match mapGet s.gok.errorBuses tag with
  | some errBus => (errBus, s)
  | none =>
    (s.heap.length,
      { s with
        heap := s.heap ++ [NewErrorBus tag]
        gok := { s.gok with errorBuses := mapSet s.gok.errorBuses tag s.heap.length } })

/-- What the environment and the goroutines can do. -/
inductive Action where
  /-- a goroutine calls `AddGokit(i)` and runs its locked block -/
  | AddGokit (i : Gokit)
  /-- a goroutine calls `AddGokitFunc(f, tag, identifier)` and runs its locked block -/
  | AddGokitFunc (f : Option GokitFunc) (tag identifier : String)
  /-- a call of `Run()`: it starts a dispatch goroutine at `START` -/
  | Run
  /-- a goroutine calls `Pause()` and blocks in the send -/
  | Pause
  /-- a goroutine calls `Restart()` and blocks in the send -/
  | Restart
  /-- a goroutine calls `Shutdown()` and blocks in the send -/
  | Shutdown
  /-- some consumer calls `Next()` on the bus at this address -/
  | Next (bus : Nat)
  /-- goroutine `tid` performs its next action; at the outer `select` this is
  the `default` branch, at the inner one the receive from a non-empty
  `gokitQueue`; the receive under `PAUSE` is `recvRestart` -/
  | step (tid : Nat)
  /-- goroutine `tid` takes `case <- gok.pause` -/
  | recvPause (tid : Nat)
  /-- goroutine `tid` takes `case <- gok.shutdown` -/
  | recvShutdown (tid : Nat)
  /-- goroutine `tid` completes `<- gok.restart` under `PAUSE` -/
  | recvRestart (tid : Nat)
  /-- goroutine `tid` takes `case <- time.After(50 * time.Millisecond)` -/
  | timeout (tid : Nat)
  /-- unbuffered `gokitQueue`: the send of goroutine `sender` meets the
  receive of goroutine `tid` -/
  | handoff (tid sender : Nat)
  /-- the unlocked map read of goroutine `tid`, during which the map was
  written, comes back with nil -/
  | raceMiss (tid : Nat)

/-- Store a new control point for goroutine `tid`. -/
def System.setThread (s : System) (tid : Nat) (t : Thread) : System :=
  { s with threads := s.threads.set tid t }

/-- One action of goroutine `tid`, which is at control point `t`. -/
def stepThread (s : System) (tid : Nat) (t : Thread) : Option System :=
  match t with
  | .addSend i errBus =>
    if s.gok.gokitQueue.length < s.gok.capacity then
      some { s with
        gok := { s.gok with gokitQueue := s.gok.gokitQueue ++ [i] }
        threads := s.threads.set tid (.addCount i errBus)
        submitted := s.submitted ++ [i] }
    else none
  | .addCount i errBus =>
    some { s with
      gok := s.gok.increaseWaitingGokitNum
      threads := s.threads.set tid (.addDone i errBus) }
  | .addDone _ _ => none
  | .runSelect =>
    if s.gok.pause = 0 ∧ s.gok.shutdown = 0 then some (s.setThread tid .runPoll) else none
  | .runPoll =>
    match s.gok.gokitQueue with
    | [] => none
    | gkt :: rest =>
      some { s with
        gok := { s.gok with gokitQueue := rest }
        threads := s.threads.set tid (.runAcquire gkt) }
  | .runAcquire gkt => some (s.setThread tid (.runCas gkt s.gok.semaphore))
  | .runCas gkt semaphore =>
    some { s with
      gok := s.gok.acquireCas semaphore
      threads := s.threads.set tid (.runGo gkt) }
  | .runGo gkt =>
    some { s with threads := s.threads.set tid .runSelect ++ [.exeStart gkt] }
  | .runPaused => none
  | .runDone => none
  | .exeStart gkt =>
    some { s with
      gok := s.gok.decreaseWaitingGokitNum
      threads := s.threads.set tid (.exeIncRunning gkt) }
  | .exeIncRunning gkt =>
    some { s with
      gok := s.gok.increaseRunningGokitNum
      threads := s.threads.set tid (.exeCall gkt) }
  | .exeCall gkt => some (s.setThread tid (.exeDecRunning gkt (gkt.Execute ())))
  | .exeDecRunning gkt err =>
    some { s with
      gok := s.gok.decreaseRunningGokitNum
      threads := s.threads.set tid (.exeLookup gkt err) }
  | .exeLookup gkt err => some (s.setThread tid (.exeReading gkt err s.gok.errorBuses))
  | .exeReading gkt err _ =>
    match mapGet s.gok.errorBuses gkt.Tag with
    | none => some (s.setThread tid (.exeRelease gkt))
    | some errBus => some (s.setThread tid (.exeAdd gkt err errBus))
  | .exeAdd gkt err errBus =>
    match s.heap[errBus]? with
    | none => none
    | some eb =>
      match eb.Add { Identifier := gkt.Identifier, Err := err } with
      | none => none
      | some eb' =>
        some { s with
          heap := s.heap.set errBus eb'
          threads := s.threads.set tid (.exeRelease gkt)
          published := s.published ++
            [{ task := gkt, bus := errBus,
               outcome := { Identifier := gkt.Identifier, Err := err } }] }
  | .exeRelease gkt =>
    some { s with
      gok := s.gok.release
      threads := s.threads.set tid (.exeDone gkt) }
  | .exeDone _ => none

/-- The transition function: `none` when the action is not enabled. -/
def step (a : Action) (s : System) : Option System :=
  match a with
  | .AddGokit i =>
    let r := lockedGetOrCreate i.Tag s
    some { r.2 with threads := r.2.threads ++ [.addSend i r.1] }
  | .AddGokitFunc f tag identifier =>
    let gkt := wrapGokitFunc f tag identifier
    let r := lockedGetOrCreate tag s
    some { r.2 with threads := r.2.threads ++ [.addSend gkt r.1] }
  | .Run => some { s with threads := s.threads ++ [.runSelect] }
  | .Pause => some { s with gok := { s.gok with pause := s.gok.pause + 1 } }
  | .Restart => some { s with gok := { s.gok with restart := s.gok.restart + 1 } }
  | .Shutdown => some { s with gok := { s.gok with shutdown := s.gok.shutdown + 1 } }
  | .Next bus =>
    match s.heap[bus]? with
    | none => none
    | some eb =>
      match eb.Next with
      | none => none
      | some r => some { s with heap := s.heap.set bus r.2 }
  | .step tid =>
    match s.threads[tid]? with
    | none => none
    | some t => stepThread s tid t
  | .recvPause tid =>
    match s.threads[tid]? with
    | some .runSelect =>
      if 0 < s.gok.pause then
        some { s with
          gok := { s.gok with pause := s.gok.pause - 1 }
          threads := s.threads.set tid .runPaused }
      else none
    | _ => none
  | .recvShutdown tid =>
    match s.threads[tid]? with
    | some .runSelect =>
      if 0 < s.gok.shutdown then
        some { s with
          gok := { s.gok with shutdown := s.gok.shutdown - 1 }
          threads := s.threads.set tid .runDone }
      else none
    | _ => none
  | .recvRestart tid =>
    match s.threads[tid]? with
    | some .runPaused =>
      if 0 < s.gok.restart then
        some { s with
          gok := { s.gok with restart := s.gok.restart - 1 }
          threads := s.threads.set tid .runSelect }
      else none
    | _ => none
  | .timeout tid =>
    match s.threads[tid]? with
    | some .runPoll =>
      if s.gok.gokitQueue.length = 0 then some (s.setThread tid .runSelect) else none
    | _ => none
  | .handoff tid sender =>
    match s.threads[tid]?, s.threads[sender]? with
    | some .runPoll, some (.addSend i errBus) =>
      if s.gok.capacity = 0 then
        some { s with
          threads := (s.threads.set tid (.runAcquire i)).set sender (.addCount i errBus)
          submitted := s.submitted ++ [i] }
      else none
    | _, _ => none
  | .raceMiss tid =>
    match s.threads[tid]? with
    | some (.exeReading gkt _ seen) =>
      if s.gok.errorBuses ≠ seen then some (s.setThread tid (.exeRelease gkt)) else none
    | _ => none

/-- The unlocked map read of goroutine `tid` overlaps a write of the map: the
runtime may stop the whole process here with `fatal error: concurrent map read
and map write`. -/
def fatalRace (s : System) (tid : Nat) : Bool :=
  match s.threads[tid]? with
  | some (.exeReading _ _ seen) => decide (s.gok.errorBuses ≠ seen)
  | _ => false

/-- Run a schedule from a state; `none` when some action was not enabled. -/
def exec (acts : List Action) (s : System) : Option System :=
  match acts with
  | [] => some s
  | a :: rest =>
    match step a s with
    | none => none
    | some s' => exec rest s'

/-- States reachable from `NewGok(capacity, concurrency)`. -/
def Reachable (capacity concurrency : Nat) (s : System) : Prop :=
  ∃ acts, exec acts (System.init capacity concurrency) = some s

/-- A call `a` of `AddGokit` or `AddGokitFunc` run from its entry to its
return with no other goroutine moving in between: the returned `errBus` and
the state at the return; `none` when the queue is full and the call blocks. -/
def callAdd (a : Action) (s : System) : Option (Nat × System) :=
  match exec [a, .step s.threads.length, .step s.threads.length] s with
  | none => none
  | some s' =>
    match s'.threads[s.threads.length]? with
    | some (.addDone _ errBus) => some (errBus, s')
    | _ => none

/-! ## Observations on states -/

/-- The task and the local `errBus` of a call of `AddGokit` / `AddGokitFunc`. -/
def Thread.addLocal : Thread → Option (Gokit × Nat)
  | .addSend i errBus => some (i, errBus)
  | .addCount i errBus => some (i, errBus)
  | .addDone i errBus => some (i, errBus)
  | _ => none

/-- The task a dispatch or execute goroutine has taken from the queue and has
not yet published an outcome for. -/
def Thread.holds : Thread → Option Gokit
  | .runAcquire gkt => some gkt
  | .runCas gkt _ => some gkt
  | .runGo gkt => some gkt
  | .exeStart gkt => some gkt
  | .exeIncRunning gkt => some gkt
  | .exeCall gkt => some gkt
  | .exeDecRunning gkt _ => some gkt
  | .exeLookup gkt _ => some gkt
  | .exeReading gkt _ _ => some gkt
  | .exeAdd gkt _ _ => some gkt
  | _ => none

/-- The local `err` of an execute goroutine once `gkt.Execute()` has returned. -/
def Thread.result : Thread → Option (Gokit × GoError)
  | .exeDecRunning gkt err => some (gkt, err)
  | .exeLookup gkt err => some (gkt, err)
  | .exeReading gkt err _ => some (gkt, err)
  | .exeAdd gkt err _ => some (gkt, err)
  | _ => none

/-- The local `errBus` of an execute goroutine about to call `Add`. -/
def Thread.addTarget : Thread → Option (Gokit × Nat)
  | .exeAdd gkt _ errBus => some (gkt, errBus)
  | _ => none

/-- The control states of a dispatch goroutine. -/
inductive Control where
  | RUNNING
  | PAUSED
  | SHUTDOWN
  deriving DecidableEq

/-- The control state of a goroutine started by `Run`; `none` for the others. -/
def Thread.control : Thread → Option Control
  | .runSelect => some .RUNNING
  | .runPoll => some .RUNNING
  | .runAcquire _ => some .RUNNING
  | .runCas _ _ => some .RUNNING
  | .runGo _ => some .RUNNING
  | .runPaused => some .PAUSED
  | .runDone => some .SHUTDOWN
  | _ => none

/-- A goroutine started by `go gok.execute(gkt)`. -/
def Thread.isExe : Thread → Bool
  | .exeStart _ => true
  | .exeIncRunning _ => true
  | .exeCall _ => true
  | .exeDecRunning _ _ => true
  | .exeLookup _ _ => true
  | .exeReading _ _ _ => true
  | .exeAdd _ _ _ => true
  | .exeRelease _ => true
  | .exeDone _ => true
  | _ => false

/-- A task that was received from the queue and whose `execute` has not yet
done its first statement `gok.decreaseWaitingGokitNum()`. -/
def Thread.notStarted : Thread → Bool
  | .runAcquire _ => true
  | .runCas _ _ => true
  | .runGo _ => true
  | .exeStart _ => true
  | _ => false

/-- A call of `AddGokit` / `AddGokitFunc` between its send and its increment. -/
def Thread.counting : Thread → Bool
  | .addCount _ _ => true
  | _ => false

/-- A task being executed: `runningGokitNum` was incremented for it and not
yet decremented. -/
def Thread.executing : Thread → Bool
  | .exeCall _ => true
  | .exeDecRunning _ _ => true
  | _ => false

/-- Number of outcomes published so far on the bus at address `b`. -/
def publishedTo (s : System) (b : Nat) : Nat :=
  s.published.countP (fun e => decide (e.bus = b))

/-- Tasks held by dispatch and execute goroutines, not yet published. -/
def heldTasks (s : System) : List Gokit := s.threads.filterMap Thread.holds

/-- Number of tasks of tag `t` that are in the queue or were taken from it
and have not yet published. -/
def pendingUnder (s : System) (t : String) : Nat :=
  s.gok.gokitQueue.countP (fun g => decide (g.Tag = t)) +
    (heldTasks s).countP (fun g => decide (g.Tag = t))

/-- Number of tasks of tag `t` whose send on `gokitQueue` completed. -/
def submittedUnder (s : System) (t : String) : Nat :=
  s.submitted.countP (fun g => decide (g.Tag = t))

/-! ## The invariant -/

/-- What a goroutine's local variables satisfy with respect to the registry:
the local `errBus` of a submission and of an execution about to publish is the
registered bus of the task's tag, a task taken from the queue has a registered
tag, and the local `err` is what the task's `Execute` returned. -/
def Thread.wf (reg : List (String × Nat)) (th : Thread) : Prop :=
  (∀ i b, th.addLocal = some (i, b) → mapGet reg i.Tag = some b) ∧
  (∀ g, th.holds = some g → mapGet reg g.Tag ≠ none) ∧
  (∀ g b, th.addTarget = some (g, b) → mapGet reg g.Tag = some b) ∧
  (∀ g e, th.result = some (g, e) → e = g.Execute ())

/-- The inductive invariant of the transition system. -/
structure Inv (s : System) : Prop where
  reg_heap : ∀ t b, mapGet s.gok.errorBuses t = some b →
    (s.heap[b]?).map ErrorBus.tag = some t
  reg_nodup : (s.gok.errorBuses.map Prod.fst).Nodup
  heap_len : s.heap.length = s.gok.errorBuses.length
  threads_wf : ∀ th ∈ s.threads, th.wf s.gok.errorBuses
  queue_reg : ∀ g ∈ s.gok.gokitQueue, mapGet s.gok.errorBuses g.Tag ≠ none
  submitted_reg : ∀ g ∈ s.submitted, mapGet s.gok.errorBuses g.Tag ≠ none
  published_ok : ∀ e ∈ s.published,
    mapGet s.gok.errorBuses e.task.Tag = some e.bus ∧
    e.outcome = { Identifier := e.task.Identifier, Err := e.task.Execute () }

/-- Number of outcomes published so far on the bus registered for tag `t`
(zero when no bus is registered for `t`). -/
def publishedUnder (s : System) (t : String) : Nat :=
  match mapGet s.gok.errorBuses t with
  | none => 0
  | some b => publishedTo s b

/-- Number of tasks received from the queue whose `execute` has not yet
decremented `waitingGokitNum`. -/
def dequeuedNotStarted (s : System) : Nat := s.threads.countP Thread.notStarted

/-- Number of calls of `AddGokit` / `AddGokitFunc` that have completed their
send and not yet their increment of `waitingGokitNum`. -/
def pendingIncrements (s : System) : Nat := s.threads.countP Thread.counting

/-- What `waitingGokitNum` satisfies in every reachable state. -/
structure WaitingInv (s : System) : Prop where
  bound : s.gok.waitingGokitNum < 4294967296
  balance : (s.gok.waitingGokitNum + pendingIncrements s) % 4294967296 =
    (s.gok.gokitQueue.length + dequeuedNotStarted s) % 4294967296

/-- The control states of the dispatch goroutines, in the order of their
`Run` calls. -/
def controls (s : System) : List Control := s.threads.filterMap Thread.control

/-- Number of execute goroutines started so far. -/
def executions (s : System) : Nat := s.threads.countP Thread.isExe

/-- The action is a call of `Run`. -/
def Action.isRun : Action → Bool
  | .Run => true
  | _ => false

/-- The action is the receive of a restart signal by a dispatch goroutine. -/
def Action.isRecvRestart : Action → Bool
  | .recvRestart _ => true
  | _ => false

/-- The argument `gkt` of an execute goroutine. -/
def Thread.task : Thread → Option Gokit
  | .exeStart gkt => some gkt
  | .exeIncRunning gkt => some gkt
  | .exeCall gkt => some gkt
  | .exeDecRunning gkt _ => some gkt
  | .exeLookup gkt _ => some gkt
  | .exeReading gkt _ _ => some gkt
  | .exeAdd gkt _ _ => some gkt
  | .exeRelease gkt => some gkt
  | .exeDone gkt => some gkt
  | _ => none

/-- The schedule contains no call of `Run`. -/
def noRun (acts : List Action) : Prop := ∀ a ∈ acts, a.isRun = false

/-- The schedule contains no receive of a restart signal. -/
def noRecvRestart (acts : List Action) : Prop := ∀ a ∈ acts, a.isRecvRestart = false

/-! ## Concrete schedules -/

/-- A task with a nil function, tag `"t"`, identifier `"a"`. -/
def taskA : Gokit := wrapGokitFunc none "t" "a"

/-- A task with a nil function, tag `"t"`, identifier `"b"`. -/
def taskB : Gokit := wrapGokitFunc none "t" "b"

/-- Goroutines 0 and 1 are two calls of `AddGokit`, each run to its return
(send, increment); goroutine 2 is the dispatch goroutine started by `Run`, which
runs two rounds (`default` branch, receive, load, compare-and-swap, `go`);
goroutines 3 and 4 are the two execute goroutines, each advanced over
`decreaseWaitingGokitNum` and `increaseRunningGokitNum` into `gkt.Execute()`. -/
def overAdmission : List Action :=
  [.AddGokit taskA, .step 0, .step 0, .AddGokit taskB, .step 1, .step 1, .Run,
   .step 2, .step 2, .step 2, .step 2, .step 2,
   .step 2, .step 2, .step 2, .step 2, .step 2,
   .step 3, .step 3, .step 4, .step 4]

/-- The state a schedule leads to from `NewGok(capacity, concurrency)` (the
initial state when the schedule is not enabled). -/
def stateAfter (acts : List Action) (capacity concurrency : Nat) : System :=
  (exec acts (System.init capacity concurrency)).getD (System.init capacity concurrency)

/-- A task with a nil function, tag `"u"`, identifier `"c"`. -/
def taskU : Gokit := wrapGokitFunc none "u" "c"

/-- Goroutine 0 is a call of `AddGokit(taskA)` run to its return; goroutine 1
is the dispatch goroutine started by `Run`, which runs one round; goroutine 2
is the execute goroutine of `taskA`, which runs `decreaseWaitingGokitNum`,
`increaseRunningGokitNum`, `gkt.Execute()`, `decreaseRunningGokitNum` and
begins the map read `gok.errorBuses[gkt.Tag()]`; then goroutine 3 calls
`AddGokit(taskU)` and its locked block inserts the entry for the new tag
`"u"` while that read is under way. -/
def racingRead : List Action :=
  [.AddGokit taskA, .step 0, .step 0, .Run,
   .step 1, .step 1, .step 1, .step 1, .step 1,
   .step 2, .step 2, .step 2, .step 2, .step 2,
   .AddGokit taskU]

/-- After `racingRead` the racing read comes back with nil, so `execute`
skips `errBus.Add`, runs `gok.release()` and returns. -/
def lostOutcome : List Action :=
  racingRead ++ [.raceMiss 2, .step 2]

/-- Two calls under the same tag, the first complete, the second still
blocked in its send on the full queue. -/
def twoCalls : List Action :=
  [.AddGokit taskA, .step 0, .step 0, .AddGokit taskB]

/-- Goroutine 0 is a call of `AddGokit` that has sent its task and not yet
incremented the counter; goroutine 1 is the dispatch goroutine started by
`Run`, which runs one round (`default` branch, receive, load,
compare-and-swap, `go`); goroutine 2 is the execute goroutine, which runs its
first statement `gok.decreaseWaitingGokitNum()`. -/
def earlyDecrement : List Action :=
  [.AddGokit taskA, .step 0, .Run,
   .step 1, .step 1, .step 1, .step 1, .step 1, .step 2]

/-- Goroutine 0 is a call of `AddGokit` run to its return; goroutine 1 is
the dispatch goroutine, which receives the signal of a call of `Pause` at its
outer `select`. -/
def pausedSchedule : List Action :=
  [.AddGokit taskA, .step 0, .step 0, .Run, .Pause, .recvPause 1]

/-- Goroutine 2 is a call of `AddGokit` run to its return; then `Shutdown`
and `Pause` are called. -/
def duringPause : List Action :=
  [.AddGokit taskB, .step 2, .step 2, .Shutdown, .Pause]

/-- Goroutine 0 submits `taskA`, the dispatch goroutine 1 runs one round and
starts the execute goroutine 2; goroutine 3 submits `taskB`, which stays in
the queue; the dispatch goroutine receives the signal of a call of
`Shutdown`. -/
def shutdownSchedule : List Action :=
  [.AddGokit taskA, .step 0, .step 0, .Run,
   .step 1, .step 1, .step 1, .step 1, .step 1,
   .AddGokit taskB, .step 3, .step 3, .Shutdown, .recvShutdown 1]

/-- Calls of `Pause` and `Restart`, and the first two statements of the
execute goroutine 2. -/
def afterShutdown : List Action :=
  [.Pause, .Restart, .step 2, .step 2]

/-- The function of the tasks of `Test_Gok`: it prints and returns `nil`. -/
def printFunc : Option GokitFunc := some (fun _ => none)

/-- The scenario of `Test_Gok` (`gok_test.go`) after `NewGok(100, 10)`:
`print-1` is submitted, `Run`, `print-2` is submitted, both are dispatched and
executed and their outcomes read; `Pause`; `print-3` and `print-4` are
submitted; `Restart`; both are dispatched and executed and their outcomes
read. -/
def testGok : List Action :=
  [.AddGokitFunc printFunc "print" "print-1", .step 0, .step 0,
   .Run,
   .AddGokitFunc printFunc "print" "print-2", .step 2, .step 2,
   .step 1, .step 1, .step 1, .step 1, .step 1,
   .step 1, .step 1, .step 1, .step 1, .step 1,
   .step 3, .step 3, .step 3, .step 3, .step 3, .step 3, .step 3, .step 3,
   .step 4, .step 4, .step 4, .step 4, .step 4, .step 4, .step 4, .step 4,
   .Next 0, .Next 0,
   .Pause, .recvPause 1,
   .AddGokitFunc printFunc "print" "print-3", .step 5, .step 5,
   .AddGokitFunc printFunc "print" "print-4", .step 6, .step 6,
   .Restart, .recvRestart 1,
   .step 1, .step 1, .step 1, .step 1, .step 1,
   .step 1, .step 1, .step 1, .step 1, .step 1,
   .step 7, .step 7, .step 7, .step 7, .step 7, .step 7, .step 7, .step 7,
   .step 8, .step 8, .step 8, .step 8, .step 8, .step 8, .step 8, .step 8,
   .Next 0, .Next 0]

end GokSched

/-! # Theorems -/

namespace GokSched

/-! ## The registry map -/

theorem mapGet_eq_none_iff (m : List (String × Nat)) (k : String) :
    mapGet m k = none ↔ k ∉ m.map Prod.fst := by
  induction m with
  | nil => simp [mapGet]
  | cons e rest ih =>
    obtain ⟨k', v⟩ := e
    by_cases h : k' = k
    · simp [mapGet, h]
    · simp [mapGet, h, ih, Ne.symm h]

theorem mapSet_of_absent (m : List (String × Nat)) (k : String) (v : Nat)
    (h : mapGet m k = none) : mapSet m k v = m ++ [(k, v)] := by
  induction m with
  | nil => rfl
  | cons e rest ih =>
    obtain ⟨k', v'⟩ := e
    by_cases hk : k' = k
    · simp [mapGet, hk] at h
    · simp only [mapGet, hk, if_false] at h
      simp [mapSet, hk, ih h]

theorem mapGet_append_single (m : List (String × Nat)) (k t : String) (v : Nat) :
    mapGet (m ++ [(k, v)]) t =
      match mapGet m t with
      | some b => some b
      | none => if k = t then some v else none := by
  induction m with
  | nil => simp [mapGet]
  | cons e rest ih =>
    obtain ⟨k', v'⟩ := e
    by_cases hk : k' = t
    · simp [mapGet, hk]
    · simp [mapGet, hk, ih]

/-! ## Lists of goroutines -/

theorem countP_set_add {α : Type} (p : α → Bool) (l : List α) (i : Nat) (a b : α)
    (h : l[i]? = some a) :
    (l.set i b).countP p + (if p a then 1 else 0) =
      l.countP p + (if p b then 1 else 0) := by
  induction l generalizing i with
  | nil => simp at h
  | cons x xs ih =>
    cases i with
    | zero =>
      simp at h
      subst h
      simp [List.countP_cons]
      omega
    | succ n =>
      simp at h
      have := ih n h
      simp [List.countP_cons]
      omega

theorem forall_mem_set {α : Type} (Q : α → Prop) (l : List α) (i : Nat) (b : α)
    (hl : ∀ x ∈ l, Q x) (hb : Q b) : ∀ x ∈ l.set i b, Q x := by
  intro x hx
  rcases List.mem_or_eq_of_mem_set hx with h | h
  · exact hl x h
  · exact h ▸ hb

theorem mem_of_getElem?_eq {α : Type} (l : List α) (i : Nat) (a : α)
    (h : l[i]? = some a) : a ∈ l := by
  rw [List.getElem?_eq_some] at h
  obtain ⟨hi, rfl⟩ := h
  exact List.getElem_mem hi

/-! ## Preservation of the invariant -/

theorem Inv.initial (capacity concurrency : Nat) : Inv (System.init capacity concurrency) := by
  constructor <;> simp [System.init, NewGok, mapGet]

/-- A step that only moves one goroutine to a control point whose locals
agree with the registry leaves the invariant intact. -/
theorem Inv.update {s s' : System} (hI : Inv s) (tid : Nat) (th th' : Thread)
    (_hth : s.threads[tid]? = some th)
    (hreg : s'.gok.errorBuses = s.gok.errorBuses) (hheap : s'.heap = s.heap)
    (hthreads : s'.threads = s.threads.set tid th')
    (hq : s'.gok.gokitQueue = s.gok.gokitQueue) (hsub : s'.submitted = s.submitted)
    (hpub : s'.published = s.published)
    (hwf : th'.wf s.gok.errorBuses) : Inv s' := by
  constructor
  · rw [hreg, hheap]; exact hI.reg_heap
  · rw [hreg]; exact hI.reg_nodup
  · rw [hreg, hheap]; exact hI.heap_len
  · rw [hreg, hthreads]; exact forall_mem_set _ _ _ _ hI.threads_wf hwf
  · rw [hreg, hq]; exact hI.queue_reg
  · rw [hreg, hsub]; exact hI.submitted_reg
  · rw [hreg, hpub]; exact hI.published_ok

/-- A state that agrees with `s` on everything the invariant reads. -/
theorem Inv.congr {s s' : System} (hI : Inv s)
    (hreg : s'.gok.errorBuses = s.gok.errorBuses) (hheap : s'.heap = s.heap)
    (hthreads : s'.threads = s.threads)
    (hq : s'.gok.gokitQueue = s.gok.gokitQueue) (hsub : s'.submitted = s.submitted)
    (hpub : s'.published = s.published) : Inv s' := by
  constructor
  · rw [hreg, hheap]; exact hI.reg_heap
  · rw [hreg]; exact hI.reg_nodup
  · rw [hreg, hheap]; exact hI.heap_len
  · rw [hreg, hthreads]; exact hI.threads_wf
  · rw [hreg, hq]; exact hI.queue_reg
  · rw [hreg, hsub]; exact hI.submitted_reg
  · rw [hreg, hpub]; exact hI.published_ok

/-- Starting a goroutine. -/
theorem Inv.spawn {s s' : System} (hI : Inv s) (th : Thread)
    (hreg : s'.gok.errorBuses = s.gok.errorBuses) (hheap : s'.heap = s.heap)
    (hthreads : s'.threads = s.threads ++ [th])
    (hq : s'.gok.gokitQueue = s.gok.gokitQueue) (hsub : s'.submitted = s.submitted)
    (hpub : s'.published = s.published)
    (hwf : th.wf s.gok.errorBuses) : Inv s' := by
  constructor
  · rw [hreg, hheap]; exact hI.reg_heap
  · rw [hreg]; exact hI.reg_nodup
  · rw [hreg, hheap]; exact hI.heap_len
  · rw [hreg, hthreads]
    intro x hx
    rcases List.mem_append.mp hx with h | h
    · exact hI.threads_wf x h
    · rw [List.mem_singleton] at h
      exact h ▸ hwf
  · rw [hreg, hq]; exact hI.queue_reg
  · rw [hreg, hsub]; exact hI.submitted_reg
  · rw [hreg, hpub]; exact hI.published_ok

theorem Thread.wf_mono {reg reg' : List (String × Nat)} {th : Thread}
    (hle : ∀ t b, mapGet reg t = some b → mapGet reg' t = some b)
    (h : th.wf reg) : th.wf reg' := by
  obtain ⟨h1, h2, h3, h4⟩ := h
  refine ⟨fun i b hb => hle _ _ (h1 i b hb), ?_, fun g b hb => hle _ _ (h3 g b hb), h4⟩
  intro g hg
  have := h2 g hg
  cases hm : mapGet reg g.Tag with
  | none => exact absurd hm this
  | some b => rw [hle _ _ hm]; simp

theorem registered_mono {reg reg' : List (String × Nat)}
    (hle : ∀ t b, mapGet reg t = some b → mapGet reg' t = some b) (t : String)
    (h : mapGet reg t ≠ none) : mapGet reg' t ≠ none := by
  cases hm : mapGet reg t with
  | none => exact absurd hm h
  | some b => rw [hle _ _ hm]; simp

/-- The locked block keeps the invariant, registers the tag with the returned
bus, never changes an existing registration and touches nothing else. -/
theorem lockedGetOrCreate_inv {s : System} (hI : Inv s) (tag : String) :
    Inv (lockedGetOrCreate tag s).2 ∧
    mapGet (lockedGetOrCreate tag s).2.gok.errorBuses tag = some (lockedGetOrCreate tag s).1 ∧
    (∀ t b, mapGet s.gok.errorBuses t = some b →
      mapGet (lockedGetOrCreate tag s).2.gok.errorBuses t = some b) ∧
    (lockedGetOrCreate tag s).2.threads = s.threads ∧
    (lockedGetOrCreate tag s).2.gok.gokitQueue = s.gok.gokitQueue ∧
    (lockedGetOrCreate tag s).2.submitted = s.submitted ∧
    (lockedGetOrCreate tag s).2.published = s.published := by
  unfold lockedGetOrCreate
  cases hm : mapGet s.gok.errorBuses tag with
  | some b => exact ⟨hI, hm, fun _ _ h => h, rfl, rfl, rfl, rfl⟩
  | none =>
    simp only [mapSet_of_absent _ _ _ hm]
    have hle : ∀ t b, mapGet s.gok.errorBuses t = some b →
        mapGet (s.gok.errorBuses ++ [(tag, s.heap.length)]) t = some b := by
      intro t b h
      rw [mapGet_append_single, h]
    refine ⟨?_, ?_, hle, by simp⟩
    · constructor
      · intro t b h
        simp only [mapGet_append_single] at h
        cases hm' : mapGet s.gok.errorBuses t with
        | some b' =>
          rw [hm'] at h
          simp only [Option.some.injEq] at h
          subst h
          have h0 := hI.reg_heap t b' hm'
          have hlt : b' < s.heap.length := by
            by_contra hc
            rw [List.getElem?_eq_none (by omega)] at h0
            simp at h0
          simpa [List.getElem?_append_left hlt] using h0
        | none =>
          rw [hm'] at h
          by_cases hk : tag = t
          · simp only [hk, if_true, Option.some.injEq] at h
            subst h
            simp [NewErrorBus, hk]
          · simp [hk] at h
      · have := (mapGet_eq_none_iff _ _).mp hm
        simp only [List.map_append, List.map_cons, List.map_nil]
        rw [List.nodup_append]
        refine ⟨hI.reg_nodup, by simp, ?_⟩
        intro a ha hb
        simp only [List.mem_singleton] at hb
        exact this (hb ▸ ha)
      · simp [hI.heap_len]
      · exact fun th hth => Thread.wf_mono hle (hI.threads_wf th hth)
      · exact fun g hg => registered_mono hle _ (hI.queue_reg g hg)
      · exact fun g hg => registered_mono hle _ (hI.submitted_reg g hg)
      · exact fun e he => ⟨hle _ _ (hI.published_ok e he).1, (hI.published_ok e he).2⟩
    · simp [mapGet_append_single, hm]

theorem Inv.step_addSend {s : System} (hI : Inv s) (tid : Nat) (i : Gokit) (b : Nat)
    (hth : s.threads[tid]? = some (.addSend i b)) :
    Inv { s with
      gok := { s.gok with gokitQueue := s.gok.gokitQueue ++ [i] }
      threads := s.threads.set tid (.addCount i b)
      submitted := s.submitted ++ [i] } := by
  have hw := hI.threads_wf _ (mem_of_getElem?_eq _ _ _ hth)
  have hreg : mapGet s.gok.errorBuses i.Tag = some b := hw.1 i b rfl
  constructor
  · exact hI.reg_heap
  · exact hI.reg_nodup
  · exact hI.heap_len
  · refine forall_mem_set _ _ _ _ hI.threads_wf ?_
    simp [Thread.wf, Thread.addLocal, Thread.holds, Thread.addTarget, Thread.result, hreg]
  · intro g hg
    rcases List.mem_append.mp hg with h | h
    · exact hI.queue_reg g h
    · simp only [List.mem_singleton] at h
      simp [h, hreg]
  · intro g hg
    rcases List.mem_append.mp hg with h | h
    · exact hI.submitted_reg g h
    · simp only [List.mem_singleton] at h
      simp [h, hreg]
  · exact hI.published_ok

theorem Inv.step_runPoll {s : System} (hI : Inv s) (tid : Nat) (gkt : Gokit)
    (rest : List Gokit) (_hth : s.threads[tid]? = some .runPoll)
    (hq : s.gok.gokitQueue = gkt :: rest) :
    Inv { s with
      gok := { s.gok with gokitQueue := rest }
      threads := s.threads.set tid (.runAcquire gkt) } := by
  have hreg : mapGet s.gok.errorBuses gkt.Tag ≠ none :=
    hI.queue_reg gkt (by rw [hq]; exact List.mem_cons_self _ _)
  constructor
  · exact hI.reg_heap
  · exact hI.reg_nodup
  · exact hI.heap_len
  · refine forall_mem_set _ _ _ _ hI.threads_wf ?_
    simpa [Thread.wf, Thread.addLocal, Thread.holds, Thread.addTarget, Thread.result] using hreg
  · intro g hg
    exact hI.queue_reg g (by rw [hq]; exact List.mem_cons_of_mem _ hg)
  · exact hI.submitted_reg
  · exact hI.published_ok

theorem Inv.step_runGo {s : System} (hI : Inv s) (tid : Nat) (gkt : Gokit)
    (hth : s.threads[tid]? = some (.runGo gkt)) :
    Inv { s with threads := s.threads.set tid .runSelect ++ [.exeStart gkt] } := by
  have hw := hI.threads_wf _ (mem_of_getElem?_eq _ _ _ hth)
  have hreg : mapGet s.gok.errorBuses gkt.Tag ≠ none := hw.2.1 gkt rfl
  constructor
  · exact hI.reg_heap
  · exact hI.reg_nodup
  · exact hI.heap_len
  · intro x hx
    rcases List.mem_append.mp hx with h | h
    · refine forall_mem_set _ _ _ _ hI.threads_wf ?_ x h
      simp [Thread.wf, Thread.addLocal, Thread.holds, Thread.addTarget, Thread.result]
    · simp only [List.mem_singleton] at h
      subst h
      simpa [Thread.wf, Thread.addLocal, Thread.holds, Thread.addTarget, Thread.result]
        using hreg
  · exact hI.queue_reg
  · exact hI.submitted_reg
  · exact hI.published_ok

theorem getElem?_set_map_tag (heap : List ErrorBus) (a b : Nat) (eb eb' : ErrorBus)
    (h : heap[a]? = some eb) (htag : eb'.tag = eb.tag) :
    ((heap.set a eb')[b]?).map ErrorBus.tag = (heap[b]?).map ErrorBus.tag := by
  by_cases hab : a = b
  · subst hab
    have hlt : a < heap.length := by
      by_contra hc
      rw [List.getElem?_eq_none (by omega)] at h
      simp at h
    simp [List.getElem?_set_self, hlt, h, htag]
  · simp [List.getElem?_set_ne hab]

theorem Inv.step_exeAdd {s : System} (hI : Inv s) (tid : Nat) (gkt : Gokit)
    (err : GoError) (b : Nat) (eb eb' : ErrorBus)
    (hth : s.threads[tid]? = some (.exeAdd gkt err b))
    (heb : s.heap[b]? = some eb) (htag : eb'.tag = eb.tag) :
    Inv { s with
      heap := s.heap.set b eb'
      threads := s.threads.set tid (.exeRelease gkt)
      published := s.published ++
        [{ task := gkt, bus := b, outcome := { Identifier := gkt.Identifier, Err := err } }] } := by
  have hw := hI.threads_wf _ (mem_of_getElem?_eq _ _ _ hth)
  have hreg : mapGet s.gok.errorBuses gkt.Tag = some b := hw.2.2.1 gkt b rfl
  have herr : err = gkt.Execute () := hw.2.2.2 gkt err rfl
  constructor
  · intro t a h
    show ((s.heap.set b eb')[a]?).map ErrorBus.tag = some t
    rw [getElem?_set_map_tag _ _ _ _ _ heb htag]
    exact hI.reg_heap t a h
  · exact hI.reg_nodup
  · simpa using hI.heap_len
  · refine forall_mem_set _ _ _ _ hI.threads_wf ?_
    simp [Thread.wf, Thread.addLocal, Thread.holds, Thread.addTarget, Thread.result]
  · exact hI.queue_reg
  · exact hI.submitted_reg
  · intro e he
    rcases List.mem_append.mp he with h | h
    · exact hI.published_ok e h
    · simp only [List.mem_singleton] at h
      subst h
      exact ⟨hreg, by rw [herr]⟩

theorem Inv.step_handoff {s : System} (hI : Inv s) (tid sender : Nat) (i : Gokit) (b : Nat)
    (hth : s.threads[tid]? = some .runPoll)
    (hsd : s.threads[sender]? = some (.addSend i b)) :
    Inv { s with
      threads := (s.threads.set tid (.runAcquire i)).set sender (.addCount i b)
      submitted := s.submitted ++ [i] } := by
  have hw := hI.threads_wf _ (mem_of_getElem?_eq _ _ _ hsd)
  have hreg : mapGet s.gok.errorBuses i.Tag = some b := hw.1 i b rfl
  have hne : tid ≠ sender := by
    intro h
    rw [h, hsd] at hth
    simp at hth
  have hsd' : (s.threads.set tid (.runAcquire i))[sender]? = some (.addSend i b) := by
    rw [List.getElem?_set_ne hne]; exact hsd
  constructor
  · exact hI.reg_heap
  · exact hI.reg_nodup
  · exact hI.heap_len
  · refine forall_mem_set _ _ _ _ (forall_mem_set _ _ _ _ hI.threads_wf ?_) ?_
    · simp [Thread.wf, Thread.addLocal, Thread.holds, Thread.addTarget, Thread.result, hreg]
    · simp [Thread.wf, Thread.addLocal, Thread.holds, Thread.addTarget, Thread.result, hreg]
  · exact hI.queue_reg
  · intro g hg
    rcases List.mem_append.mp hg with h | h
    · exact hI.submitted_reg g h
    · simp only [List.mem_singleton] at h
      simp [h, hreg]
  · exact hI.published_ok

theorem Inv.thread_next {s s' : System} (hI : Inv s) (tid : Nat) (th : Thread)
    (hth : s.threads[tid]? = some th) (h : stepThread s tid th = some s') : Inv s' := by
  have hw := hI.threads_wf _ (mem_of_getElem?_eq _ _ _ hth)
  cases th with
  | addSend i b =>
    simp only [stepThread] at h
    split at h
    · cases h; exact hI.step_addSend tid i b hth
    · cases h
  | addCount i b =>
    simp only [stepThread, Option.some.injEq] at h
    subst h
    exact hI.update tid _ (.addDone i b) hth rfl rfl rfl rfl rfl rfl
      (by simpa [Thread.wf, Thread.addLocal, Thread.holds, Thread.addTarget, Thread.result]
        using hw.1 i b rfl)
  | addDone i b => simp [stepThread] at h
  | runSelect =>
    simp only [stepThread] at h
    split at h
    · cases h
      exact hI.update tid _ .runPoll hth rfl rfl rfl rfl rfl rfl
        (by simp [Thread.wf, Thread.addLocal, Thread.holds, Thread.addTarget, Thread.result])
    · cases h
  | runPoll =>
    simp only [stepThread] at h
    split at h
    · cases h
    · next gkt rest hq => cases h; exact hI.step_runPoll tid gkt rest hth hq
  | runAcquire gkt =>
    simp only [stepThread, Option.some.injEq] at h
    subst h
    exact hI.update tid _ (.runCas gkt s.gok.semaphore) hth rfl rfl rfl rfl rfl rfl
      (by simpa [Thread.wf, Thread.addLocal, Thread.holds, Thread.addTarget, Thread.result]
        using hw.2.1 gkt rfl)
  | runCas gkt sem =>
    simp only [stepThread, Option.some.injEq] at h
    subst h
    exact hI.update tid _ (.runGo gkt) hth rfl rfl rfl rfl rfl rfl
      (by simpa [Thread.wf, Thread.addLocal, Thread.holds, Thread.addTarget, Thread.result]
        using hw.2.1 gkt rfl)
  | runGo gkt =>
    simp only [stepThread, Option.some.injEq] at h
    subst h
    exact hI.step_runGo tid gkt hth
  | runPaused => simp [stepThread] at h
  | runDone => simp [stepThread] at h
  | exeStart gkt =>
    simp only [stepThread, Option.some.injEq] at h
    subst h
    exact hI.update tid _ (.exeIncRunning gkt) hth rfl rfl rfl rfl rfl rfl
      (by simpa [Thread.wf, Thread.addLocal, Thread.holds, Thread.addTarget, Thread.result]
        using hw.2.1 gkt rfl)
  | exeIncRunning gkt =>
    simp only [stepThread, Option.some.injEq] at h
    subst h
    exact hI.update tid _ (.exeCall gkt) hth rfl rfl rfl rfl rfl rfl
      (by simpa [Thread.wf, Thread.addLocal, Thread.holds, Thread.addTarget, Thread.result]
        using hw.2.1 gkt rfl)
  | exeCall gkt =>
    simp only [stepThread, Option.some.injEq] at h
    subst h
    exact hI.update tid _ (.exeDecRunning gkt (gkt.Execute ())) hth rfl rfl rfl rfl rfl rfl
      (by simpa [Thread.wf, Thread.addLocal, Thread.holds, Thread.addTarget, Thread.result]
        using hw.2.1 gkt rfl)
  | exeDecRunning gkt err =>
    simp only [stepThread, Option.some.injEq] at h
    subst h
    exact hI.update tid _ (.exeLookup gkt err) hth rfl rfl rfl rfl rfl rfl
      (by simpa [Thread.wf, Thread.addLocal, Thread.holds, Thread.addTarget, Thread.result]
        using ⟨hw.2.1 gkt rfl, hw.2.2.2 gkt err rfl⟩)
  | exeLookup gkt err =>
    simp only [stepThread, Option.some.injEq] at h
    subst h
    exact hI.update tid _ (.exeReading gkt err s.gok.errorBuses) hth rfl rfl rfl rfl rfl rfl
      (by simpa [Thread.wf, Thread.addLocal, Thread.holds, Thread.addTarget, Thread.result]
        using ⟨hw.2.1 gkt rfl, hw.2.2.2 gkt err rfl⟩)
  | exeReading gkt err seen =>
    simp only [stepThread] at h
    split at h
    · next hm => exact absurd hm (hw.2.1 gkt rfl)
    · next errBus hm =>
      simp only [Option.some.injEq] at h
      subst h
      exact hI.update tid _ (.exeAdd gkt err errBus) hth rfl rfl rfl rfl rfl rfl
        (by simpa [Thread.wf, Thread.addLocal, Thread.holds, Thread.addTarget, Thread.result]
          using ⟨hw.2.1 gkt rfl, hm, hw.2.2.2 gkt err rfl⟩)
  | exeAdd gkt err errBus =>
    simp only [stepThread] at h
    split at h
    · cases h
    · next eb heb =>
      split at h
      · cases h
      · next eb' hadd =>
        cases h
        refine hI.step_exeAdd tid gkt err errBus eb eb' hth heb ?_
        unfold ErrorBus.Add at hadd
        split at hadd
        · cases hadd; rfl
        · cases hadd
  | exeRelease gkt =>
    simp only [stepThread, Option.some.injEq] at h
    subst h
    exact hI.update tid _ (.exeDone gkt) hth rfl rfl rfl rfl rfl rfl
      (by simp [Thread.wf, Thread.addLocal, Thread.holds, Thread.addTarget, Thread.result])
  | exeDone gkt => simp [stepThread] at h

theorem Inv.heap_set {s : System} (hI : Inv s) (b : Nat) (eb eb' : ErrorBus)
    (heb : s.heap[b]? = some eb) (htag : eb'.tag = eb.tag) :
    Inv { s with heap := s.heap.set b eb' } := by
  constructor
  · intro t a h
    show ((s.heap.set b eb')[a]?).map ErrorBus.tag = some t
    rw [getElem?_set_map_tag _ _ _ _ _ heb htag]
    exact hI.reg_heap t a h
  · exact hI.reg_nodup
  · simpa using hI.heap_len
  · exact hI.threads_wf
  · exact hI.queue_reg
  · exact hI.submitted_reg
  · exact hI.published_ok

theorem wf_of_no_locals (reg : List (String × Nat)) (th : Thread)
    (h1 : th.addLocal = none) (h2 : th.holds = none) (h3 : th.addTarget = none)
    (h4 : th.result = none) : th.wf reg := by
  simp [Thread.wf, h1, h2, h3, h4]

/-- Every transition preserves the invariant. -/
theorem Inv.next {s s' : System} (hI : Inv s) (a : Action) (h : step a s = some s') :
    Inv s' := by
  cases a with
  | AddGokit i =>
    simp only [GokSched.step, Option.some.injEq] at h
    subst h
    obtain ⟨h1, h2, -, h4, h5, h6, h7⟩ := lockedGetOrCreate_inv hI i.Tag
    refine h1.spawn (.addSend i (lockedGetOrCreate i.Tag s).1) rfl rfl rfl rfl rfl rfl ?_
    simpa [Thread.wf, Thread.addLocal, Thread.holds, Thread.addTarget, Thread.result] using h2
  | AddGokitFunc f tag identifier =>
    simp only [GokSched.step, Option.some.injEq] at h
    subst h
    obtain ⟨h1, h2, -, h4, h5, h6, h7⟩ := lockedGetOrCreate_inv hI tag
    refine h1.spawn (.addSend (wrapGokitFunc f tag identifier) (lockedGetOrCreate tag s).1)
      rfl rfl rfl rfl rfl rfl ?_
    simpa [Thread.wf, Thread.addLocal, Thread.holds, Thread.addTarget, Thread.result,
      wrapGokitFunc, gokit.toGokit, gokit.Tag] using h2
  | Run =>
    simp only [GokSched.step, Option.some.injEq] at h
    subst h
    exact hI.spawn .runSelect rfl rfl rfl rfl rfl rfl (wf_of_no_locals _ _ rfl rfl rfl rfl)
  | Pause =>
    simp only [GokSched.step, Option.some.injEq] at h
    subst h
    exact hI.congr rfl rfl rfl rfl rfl rfl
  | Restart =>
    simp only [GokSched.step, Option.some.injEq] at h
    subst h
    exact hI.congr rfl rfl rfl rfl rfl rfl
  | Shutdown =>
    simp only [GokSched.step, Option.some.injEq] at h
    subst h
    exact hI.congr rfl rfl rfl rfl rfl rfl
  | Next bus =>
    simp only [GokSched.step] at h
    split at h
    · cases h
    · next eb heb =>
      split at h
      · cases h
      · next r hr =>
        cases h
        refine hI.heap_set bus eb r.2 heb ?_
        unfold ErrorBus.Next at hr
        split at hr
        · cases hr
        · cases hr; rfl
  | step tid =>
    simp only [GokSched.step] at h
    split at h
    · cases h
    · next t ht => exact hI.thread_next tid t ht h
  | recvPause tid =>
    simp only [GokSched.step] at h
    split at h
    · next ht =>
      split at h
      · cases h
        exact hI.update tid _ .runPaused ht rfl rfl rfl rfl rfl rfl
          (wf_of_no_locals _ _ rfl rfl rfl rfl)
      · cases h
    · cases h
  | recvShutdown tid =>
    simp only [GokSched.step] at h
    split at h
    · next ht =>
      split at h
      · cases h
        exact hI.update tid _ .runDone ht rfl rfl rfl rfl rfl rfl
          (wf_of_no_locals _ _ rfl rfl rfl rfl)
      · cases h
    · cases h
  | recvRestart tid =>
    simp only [GokSched.step] at h
    split at h
    · next ht =>
      split at h
      · cases h
        exact hI.update tid _ .runSelect ht rfl rfl rfl rfl rfl rfl
          (wf_of_no_locals _ _ rfl rfl rfl rfl)
      · cases h
    · cases h
  | timeout tid =>
    simp only [GokSched.step] at h
    split at h
    · next ht =>
      split at h
      · cases h
        exact hI.update tid _ .runSelect ht rfl rfl rfl rfl rfl rfl
          (wf_of_no_locals _ _ rfl rfl rfl rfl)
      · cases h
    · cases h
  | handoff tid sender =>
    simp only [GokSched.step] at h
    split at h
    · next i errBus ht hs =>
      split at h
      · cases h
        exact hI.step_handoff tid sender i errBus ht hs
      · cases h
    · cases h
  | raceMiss tid =>
    simp only [GokSched.step] at h
    split at h
    · next gkt err seen ht =>
      split at h
      · cases h
        exact hI.update tid _ (.exeRelease gkt) ht rfl rfl rfl rfl rfl rfl
          (wf_of_no_locals _ _ rfl rfl rfl rfl)
      · cases h
    · cases h

theorem Inv.after {s s' : System} (hI : Inv s) (acts : List Action)
    (h : exec acts s = some s') : Inv s' := by
  induction acts generalizing s with
  | nil =>
    simp only [GokSched.exec, Option.some.injEq] at h
    exact h ▸ hI
  | cons a rest ih =>
    simp only [GokSched.exec] at h
    split at h
    · cases h
    · next s1 h1 => exact ih (hI.next a h1) h

theorem Reachable.inv {capacity concurrency : Nat} {s : System}
    (h : Reachable capacity concurrency s) : Inv s := by
  obtain ⟨acts, hacts⟩ := h
  exact (Inv.initial capacity concurrency).after acts hacts

/-- The registry is append-only: no transition removes or changes the bus
registered for a tag. -/
theorem step_registry_mono {s s' : System} (a : Action) (h : step a s = some s')
    (hI : Inv s) (t : String) (b : Nat) (hb : mapGet s.gok.errorBuses t = some b) :
    mapGet s'.gok.errorBuses t = some b := by
  cases a with
  | AddGokit i =>
    simp only [step, Option.some.injEq] at h
    subst h
    exact (lockedGetOrCreate_inv hI i.Tag).2.2.1 t b hb
  | AddGokitFunc f tag identifier =>
    simp only [step, Option.some.injEq] at h
    subst h
    exact (lockedGetOrCreate_inv hI tag).2.2.1 t b hb
  | step tid =>
    simp only [step] at h
    split at h
    · cases h
    · next th _ =>
      cases th <;> simp only [stepThread, System.setThread] at h <;>
        (repeat' split at h) <;> first | (cases h; exact hb) | cases h
  | _ =>
    simp only [step, System.setThread] at h
    (repeat' split at h) <;> first | (cases h; exact hb) | cases h

/-! ## The unlocked map read -/

/-- C2 (violated by the code): after `NewGok(2, 1)` the schedule `racingRead`
is enabled and ends in a state in which the map read of `execute` overlaps the
write of `AddGokit` (the runtime may stop the process there).  When the read
comes back with nil (`lostOutcome`), the task of tag `"t"` has left the queue
and is held by no goroutine, nothing was published on the bus of `"t"`, and
one task was submitted under `"t"`: published plus pending is 0, not 1. -/
theorem racingRead_breaks_conservation :
    Reachable 2 1 (stateAfter racingRead 2 1) ∧
    fatalRace (stateAfter racingRead 2 1) 2 = true ∧
    Reachable 2 1 (stateAfter lostOutcome 2 1) ∧
    publishedUnder (stateAfter lostOutcome 2 1) "t" = 0 ∧
    pendingUnder (stateAfter lostOutcome 2 1) "t" = 0 ∧
    submittedUnder (stateAfter lostOutcome 2 1) "t" = 1 ∧
    ¬ (publishedUnder (stateAfter lostOutcome 2 1) "t" +
        pendingUnder (stateAfter lostOutcome 2 1) "t" =
      submittedUnder (stateAfter lostOutcome 2 1) "t") :=
  ⟨⟨racingRead, rfl⟩, by decide, ⟨lostOutcome, rfl⟩, by decide, by decide, by decide,
    by decide⟩

/-- C4 (violated by the code): after `NewGok(2, 1)` and the schedule
`racingRead`, the execute goroutine of `taskA` has called `gkt.Execute()` and
is inside the unlocked map read while the registry, which does hold the bus of
its tag, is being written.  When the read comes back with nil, `execute` runs
to its return (`lostOutcome`) and the publication history is empty: the
executed task has published no outcome at all. -/
theorem racingRead_execute_publishes_nothing :
    (stateAfter racingRead 2 1).threads[2]? =
      some (.exeReading taskA (taskA.Execute ()) [("t", 0)]) ∧
    (stateAfter racingRead 2 1).gok.errorBuses = [("t", 0), ("u", 1)] ∧
    mapGet (stateAfter racingRead 2 1).gok.errorBuses taskA.Tag = some 0 ∧
    step (.raceMiss 2) (stateAfter racingRead 2 1) =
      some ((stateAfter racingRead 2 1).setThread 2 (.exeRelease taskA)) ∧
    (stateAfter lostOutcome 2 1).threads[2]? = some (.exeDone taskA) ∧
    (stateAfter lostOutcome 2 1).submitted.map Gokit.Identifier = ["a"] ∧
    (stateAfter lostOutcome 2 1).published.length = 0 ∧
    (stateAfter lostOutcome 2 1).heap.map ErrorBus.ch = [[], []] :=
  ⟨rfl, rfl, rfl, rfl, rfl, rfl, rfl, rfl⟩

/-- C3: in every reachable state a call of `AddGokit(i)` ends its locked block
with a local `errBus` that is registered for `i.Tag()` and whose `Tag()` is
`i.Tag()`.  If the tag was registered, `errBus` is the registered bus and
registry and heap are unchanged; otherwise one bus is allocated at a fresh
address and the one entry for the tag is added.  No existing entry changes,
and no transition of the system ever removes or changes an entry.
The registry has one entry per tag and one allocated bus per entry, and any
two calls under the same tag, whatever their control points (also after
their return), carry the same `errBus`, which is registered for their tag and
has that tag. -/
theorem AddGokit_get_or_create (capacity concurrency : Nat) (s : System)
    (h : Reachable capacity concurrency s) (i : Gokit) :
    (∃ errBus s', step (.AddGokit i) s = some s' ∧
      s'.threads = s.threads ++ [.addSend i errBus] ∧
      (s'.heap[errBus]?).map ErrorBus.Tag = some i.Tag ∧
      mapGet s'.gok.errorBuses i.Tag = some errBus ∧
      (mapGet s.gok.errorBuses i.Tag = some errBus ∧
          s'.gok.errorBuses = s.gok.errorBuses ∧ s'.heap = s.heap ∨
        mapGet s.gok.errorBuses i.Tag = none ∧ errBus = s.heap.length ∧
          s'.gok.errorBuses = s.gok.errorBuses ++ [(i.Tag, errBus)] ∧
          s'.heap = s.heap ++ [NewErrorBus i.Tag]) ∧
      (∀ t b, mapGet s.gok.errorBuses t = some b → mapGet s'.gok.errorBuses t = some b) ∧
      (∀ t, t ≠ i.Tag → mapGet s'.gok.errorBuses t = mapGet s.gok.errorBuses t)) ∧
    (∀ a s', step a s = some s' → ∀ t b, mapGet s.gok.errorBuses t = some b →
      mapGet s'.gok.errorBuses t = some b) ∧
    (s.gok.errorBuses.map Prod.fst).Nodup ∧
    s.heap.length = s.gok.errorBuses.length ∧
    (∀ th ∈ s.threads, ∀ i1 b1, th.addLocal = some (i1, b1) →
      mapGet s.gok.errorBuses i1.Tag = some b1 ∧
      (s.heap[b1]?).map ErrorBus.Tag = some i1.Tag) ∧
    (∀ th1 ∈ s.threads, ∀ th2 ∈ s.threads, ∀ i1 b1 i2 b2,
      th1.addLocal = some (i1, b1) → th2.addLocal = some (i2, b2) →
      i1.Tag = i2.Tag → b1 = b2) := by
  have hI := h.inv
  refine ⟨?_, fun a s' hs t b hb => step_registry_mono a hs hI t b hb, hI.reg_nodup,
    hI.heap_len, fun th hth i1 b1 e1 => ⟨(hI.threads_wf th hth).1 i1 b1 e1,
      hI.reg_heap _ _ ((hI.threads_wf th hth).1 i1 b1 e1)⟩, ?_⟩
  · obtain ⟨h1, h2, h3, -⟩ := lockedGetOrCreate_inv hI i.Tag
    refine ⟨(lockedGetOrCreate i.Tag s).1,
      { (lockedGetOrCreate i.Tag s).2 with
        threads := (lockedGetOrCreate i.Tag s).2.threads ++
          [.addSend i (lockedGetOrCreate i.Tag s).1] }, rfl, ?_, ?_, h2, ?_, h3, ?_⟩
    · simp only [(lockedGetOrCreate_inv hI i.Tag).2.2.2.1]
    · exact h1.reg_heap _ _ h2
    · unfold lockedGetOrCreate
      cases hm : mapGet s.gok.errorBuses i.Tag with
      | some b => exact Or.inl ⟨rfl, rfl, rfl⟩
      | none => exact Or.inr ⟨rfl, rfl, mapSet_of_absent _ _ _ hm, rfl⟩
    · intro t ht
      unfold lockedGetOrCreate
      cases hm : mapGet s.gok.errorBuses i.Tag with
      | some b => rfl
      | none =>
        simp only [mapSet_of_absent _ _ _ hm, mapGet_append_single]
        cases mapGet s.gok.errorBuses t with
        | some b => rfl
        | none => simp [Ne.symm ht]
  · intro th1 h1 th2 h2 i1 b1 i2 b2 e1 e2 htag
    have r1 := (hI.threads_wf th1 h1).1 i1 b1 e1
    have r2 := (hI.threads_wf th2 h2).1 i2 b2 e2
    rw [htag, r2] at r1
    exact (Option.some.inj r1).symm

/-- C3 at the end of the schedule `twoCalls`: two calls under tag `"t"`
share the bus at address 0, the only entry of the registry. -/
theorem AddGokit_get_or_create_witness :
    (stateAfter twoCalls 1 1).threads =
      [.addDone taskA 0, .addSend taskB 0] ∧
    (stateAfter twoCalls 1 1).gok.errorBuses = [("t", 0)] ∧
    ((stateAfter twoCalls 1 1).gok.errorBuses.map Prod.fst).Nodup ∧
    (stateAfter twoCalls 1 1).heap.length =
      (stateAfter twoCalls 1 1).gok.errorBuses.length :=
  ⟨rfl, rfl,
    (AddGokit_get_or_create 1 1 (stateAfter twoCalls 1 1) ⟨twoCalls, rfl⟩ taskA).2.2.1,
    (AddGokit_get_or_create 1 1 (stateAfter twoCalls 1 1) ⟨twoCalls, rfl⟩ taskA).2.2.2.1⟩

/-! ## The waiting counter -/

theorem countP_set_eq {α : Type} (p : α → Bool) (l : List α) (i : Nat) (a b : α)
    (h : l[i]? = some a) :
    (l.set i b).countP p = l.countP p - (if p a then 1 else 0) + (if p b then 1 else 0) := by
  have h1 := countP_set_add p l i a b h
  have h2 : (if p a then 1 else 0) ≤ l.countP p := by
    by_cases hp : p a
    · simp only [hp, if_true]
      exact List.countP_pos_iff.mpr ⟨a, mem_of_getElem?_eq _ _ _ h, hp⟩
    · simp [hp]
  omega

theorem countP_pos_of_getElem? {α : Type} (p : α → Bool) (l : List α) (i : Nat) (a : α)
    (h : l[i]? = some a) (hp : p a = true) : 0 < l.countP p :=
  List.countP_pos_iff.mpr ⟨a, mem_of_getElem?_eq _ _ _ h, hp⟩

theorem WaitingInv.start (capacity concurrency : Nat) :
    WaitingInv (System.init capacity concurrency) := by
  constructor <;> simp [System.init, NewGok, pendingIncrements, dequeuedNotStarted]

theorem WaitingInv.thread_advance {s s' : System} (hW : WaitingInv s) (tid : Nat) (th : Thread)
    (hth : s.threads[tid]? = some th) (h : stepThread s tid th = some s') :
    WaitingInv s' := by
  obtain ⟨hb, hbal⟩ := hW
  unfold pendingIncrements dequeuedNotStarted at hbal
  have p1 := countP_pos_of_getElem? Thread.notStarted _ _ _ hth
  have p2 := countP_pos_of_getElem? Thread.counting _ _ _ hth
  cases th
  case runPoll =>
    simp only [stepThread] at h
    split at h
    · cases h
    · next gkt rest hq =>
      simp only [Option.some.injEq] at h
      subst h
      rw [hq] at hbal
      constructor <;>
      simp only [pendingIncrements, dequeuedNotStarted, countP_set_eq _ _ _ _ _ hth,
        Thread.notStarted, Thread.counting, List.length_cons, eq_self_iff_true, if_true,
        if_false, Bool.false_eq_true] at * <;>
      omega
  all_goals
    simp only [stepThread, System.setThread] at h
    (repeat' split at h) <;> (try (cases h; done)) <;>
    (simp only [Option.some.injEq] at h; subst h
     constructor <;>
     simp only [pendingIncrements, dequeuedNotStarted, countP_set_eq _ _ _ _ _ hth,
      Thread.notStarted, Thread.counting, increaseNum, decreaseNum, List.countP_append,
      Gok.increaseWaitingGokitNum, Gok.decreaseWaitingGokitNum, Gok.increaseRunningGokitNum,
      Gok.decreaseRunningGokitNum, Gok.release, Gok.acquireCas,
      List.countP_cons, List.countP_nil, List.length_append, List.length_cons,
      List.length_nil, eq_self_iff_true, if_true, if_false, Bool.false_eq_true,
      true_implies, false_implies] at * <;>
     omega)

theorem lockedGetOrCreate_frame (tag : String) (s : System) :
    (lockedGetOrCreate tag s).2.threads = s.threads ∧
    (lockedGetOrCreate tag s).2.submitted = s.submitted ∧
    (lockedGetOrCreate tag s).2.published = s.published ∧
    (lockedGetOrCreate tag s).2.gok.gokitQueue = s.gok.gokitQueue ∧
    (lockedGetOrCreate tag s).2.gok.waitingGokitNum = s.gok.waitingGokitNum ∧
    (lockedGetOrCreate tag s).2.gok.pause = s.gok.pause ∧
    (lockedGetOrCreate tag s).2.gok.restart = s.gok.restart ∧
    (lockedGetOrCreate tag s).2.gok.shutdown = s.gok.shutdown := by
  unfold lockedGetOrCreate
  cases mapGet s.gok.errorBuses tag <;> simp

theorem WaitingInv.advance {s s' : System} (hW : WaitingInv s) (a : Action)
    (h : step a s = some s') : WaitingInv s' := by
  cases a with
  | step tid =>
    simp only [GokSched.step] at h
    split at h
    · cases h
    · next t ht => exact hW.thread_advance tid t ht h
  | AddGokit i =>
    simp only [GokSched.step, Option.some.injEq] at h
    subst h
    obtain ⟨f1, -, -, f4, f5, -⟩ := lockedGetOrCreate_frame i.Tag s
    obtain ⟨hb, hbal⟩ := hW
    constructor
    · simpa only [f5] using hb
    · simpa [pendingIncrements, dequeuedNotStarted, f1, f4, f5, Thread.counting,
        Thread.notStarted] using hbal
  | AddGokitFunc f tag identifier =>
    simp only [GokSched.step, Option.some.injEq] at h
    subst h
    obtain ⟨f1, -, -, f4, f5, -⟩ := lockedGetOrCreate_frame tag s
    obtain ⟨hb, hbal⟩ := hW
    constructor
    · simpa only [f5] using hb
    · simpa [pendingIncrements, dequeuedNotStarted, f1, f4, f5, Thread.counting,
        Thread.notStarted] using hbal
  | handoff tid sender =>
    simp only [GokSched.step] at h
    split at h
    · next i errBus ht hs =>
      split at h
      · next hcap =>
        cases h
        have hne : tid ≠ sender := by
          intro e
          rw [e, hs] at ht
          simp at ht
        have hs' : (s.threads.set tid (.runAcquire i))[sender]? = some (.addSend i errBus) := by
          rw [List.getElem?_set_ne hne]; exact hs
        obtain ⟨hb, hbal⟩ := hW
        constructor
        · exact hb
        · simp only [pendingIncrements, dequeuedNotStarted, countP_set_eq _ _ _ _ _ hs',
            countP_set_eq _ _ _ _ _ ht, Thread.notStarted, Thread.counting,
            eq_self_iff_true, if_true, if_false, Bool.false_eq_true] at *
          omega
      · cases h
    · cases h
  | Next bus =>
    simp only [GokSched.step] at h
    (repeat' split at h) <;> (try (cases h; done))
    cases h
    exact ⟨hW.bound, hW.balance⟩
  | Run =>
    simp only [GokSched.step, Option.some.injEq] at h
    subst h
    obtain ⟨hb, hbal⟩ := hW
    exact ⟨hb, by simpa [pendingIncrements, dequeuedNotStarted, Thread.counting,
      Thread.notStarted] using hbal⟩
  | Pause =>
    simp only [GokSched.step, Option.some.injEq] at h
    subst h
    exact ⟨hW.bound, hW.balance⟩
  | Restart =>
    simp only [GokSched.step, Option.some.injEq] at h
    subst h
    exact ⟨hW.bound, hW.balance⟩
  | Shutdown =>
    simp only [GokSched.step, Option.some.injEq] at h
    subst h
    exact ⟨hW.bound, hW.balance⟩
  | recvPause tid =>
    simp only [GokSched.step] at h
    split at h
    · next ht =>
      split at h
      · cases h
        obtain ⟨hb, hbal⟩ := hW
        constructor
        · exact hb
        · simp only [pendingIncrements, dequeuedNotStarted, countP_set_eq _ _ _ _ _ ht,
            Thread.notStarted, Thread.counting, if_false, Bool.false_eq_true] at *
          omega
      · cases h
    · cases h
  | recvShutdown tid =>
    simp only [GokSched.step] at h
    split at h
    · next ht =>
      split at h
      · cases h
        obtain ⟨hb, hbal⟩ := hW
        constructor
        · exact hb
        · simp only [pendingIncrements, dequeuedNotStarted, countP_set_eq _ _ _ _ _ ht,
            Thread.notStarted, Thread.counting, if_false, Bool.false_eq_true] at *
          omega
      · cases h
    · cases h
  | recvRestart tid =>
    simp only [GokSched.step] at h
    split at h
    · next ht =>
      split at h
      · cases h
        obtain ⟨hb, hbal⟩ := hW
        constructor
        · exact hb
        · simp only [pendingIncrements, dequeuedNotStarted, countP_set_eq _ _ _ _ _ ht,
            Thread.notStarted, Thread.counting, if_false, Bool.false_eq_true] at *
          omega
      · cases h
    · cases h
  | timeout tid =>
    simp only [GokSched.step] at h
    split at h
    · next ht =>
      split at h
      · cases h
        obtain ⟨hb, hbal⟩ := hW
        constructor
        · exact hb
        · simp only [pendingIncrements, dequeuedNotStarted, System.setThread,
            countP_set_eq _ _ _ _ _ ht,
            Thread.notStarted, Thread.counting, if_false, Bool.false_eq_true] at *
          omega
      · cases h
    · cases h
  | raceMiss tid =>
    simp only [GokSched.step] at h
    split at h
    · next gkt err seen ht =>
      split at h
      · cases h
        obtain ⟨hb, hbal⟩ := hW
        constructor
        · exact hb
        · simp only [pendingIncrements, dequeuedNotStarted, System.setThread,
            countP_set_eq _ _ _ _ _ ht,
            Thread.notStarted, Thread.counting, if_false, Bool.false_eq_true] at *
          omega
      · cases h
    · cases h

theorem WaitingInv.along {s s' : System} (hW : WaitingInv s) (acts : List Action)
    (h : exec acts s = some s') : WaitingInv s' := by
  induction acts generalizing s with
  | nil =>
    simp only [GokSched.exec, Option.some.injEq] at h
    exact h ▸ hW
  | cons a rest ih =>
    simp only [GokSched.exec] at h
    split at h
    · cases h
    · next s1 h1 => exact ih (hW.advance a h1) h

/-- C8 as stated fails: after `NewGok(1, 1)` the schedule `earlyDecrement` is
enabled and leads to a state with an empty queue and no task waiting to start
in which `waitingGokitNum` has wrapped to `4294967295`. -/
theorem waitingGokitNum_wraps :
    Reachable 1 1 (stateAfter earlyDecrement 1 1) ∧
    (stateAfter earlyDecrement 1 1).gok.waitingGokitNum = 4294967295 ∧
    (stateAfter earlyDecrement 1 1).gok.gokitQueue.length +
      dequeuedNotStarted (stateAfter earlyDecrement 1 1) = 0 ∧
    ¬ ((stateAfter earlyDecrement 1 1).gok.waitingGokitNum =
      (stateAfter earlyDecrement 1 1).gok.gokitQueue.length +
        dequeuedNotStarted (stateAfter earlyDecrement 1 1)) :=
  ⟨⟨earlyDecrement, rfl⟩, by decide, by decide, by decide⟩

/-- C8 amended: in every reachable state `waitingGokitNum`, plus the number
of calls that have sent their task and not yet incremented the counter, is
congruent modulo `2 ^ 32` to the number of tasks in the queue plus the number
of tasks received from it whose `execute` has not yet started.  Hence the
counter equals that number whenever no call is between its send and its
increment and the number is below `2 ^ 32`. -/
theorem waitingGokitNum_balance (capacity concurrency : Nat) (s : System)
    (h : Reachable capacity concurrency s) :
    s.gok.waitingGokitNum < 4294967296 ∧
    (s.gok.waitingGokitNum + pendingIncrements s) % 4294967296 =
      (s.gok.gokitQueue.length + dequeuedNotStarted s) % 4294967296 ∧
    (pendingIncrements s = 0 →
      s.gok.gokitQueue.length + dequeuedNotStarted s < 4294967296 →
      s.gok.waitingGokitNum = s.gok.gokitQueue.length + dequeuedNotStarted s) := by
  obtain ⟨acts, hacts⟩ := h
  obtain ⟨hb, hbal⟩ := (WaitingInv.start capacity concurrency).along acts hacts
  refine ⟨hb, hbal, fun h0 hlt => ?_⟩
  rw [h0] at hbal
  omega

/-- C8 amended at the end of the schedule `twoCalls`: no increment is
pending and the counter is the length of the queue. -/
theorem waitingGokitNum_balance_witness :
    Reachable 1 1 (stateAfter twoCalls 1 1) ∧
    pendingIncrements (stateAfter twoCalls 1 1) = 0 ∧
    (stateAfter twoCalls 1 1).gok.waitingGokitNum = 1 ∧
    (stateAfter twoCalls 1 1).gok.waitingGokitNum =
      (stateAfter twoCalls 1 1).gok.gokitQueue.length +
        dequeuedNotStarted (stateAfter twoCalls 1 1) :=
  ⟨⟨twoCalls, rfl⟩, by decide, by decide,
    (waitingGokitNum_balance 1 1 (stateAfter twoCalls 1 1) ⟨twoCalls, rfl⟩).2.2
      (by decide) (by decide)⟩

/-! ## Pause and shutdown -/

theorem filterMap_set_same {α β : Type} (f : α → Option β) (l : List α) (i : Nat) (a b : α)
    (h : l[i]? = some a) (hf : f b = f a) : (l.set i b).filterMap f = l.filterMap f := by
  induction l generalizing i with
  | nil => simp at h
  | cons x xs ih =>
    cases i with
    | zero =>
      simp at h
      subst h
      simp [List.filterMap_cons, hf]
    | succ n =>
      simp at h
      simp [List.filterMap_cons, ih n h]

/-- While no dispatch goroutine is inside its loop, a transition other than a
call of `Run` or the receive of a restart signal removes nothing from the
queue, starts no execution, consumes no signal and changes no control state. -/
theorem quiet_step {s s' : System} (a : Action)
    (hq : ∀ th ∈ s.threads, th.control ≠ some .RUNNING)
    (hrun : a.isRun = false) (hres : a.isRecvRestart = false)
    (h : step a s = some s') :
    controls s' = controls s ∧
    (∃ new, s'.submitted = s.submitted ++ new ∧
      s'.gok.gokitQueue = s.gok.gokitQueue ++ new) ∧
    executions s' = executions s ∧
    s.gok.pause ≤ s'.gok.pause ∧ s.gok.restart ≤ s'.gok.restart ∧
    s.gok.shutdown ≤ s'.gok.shutdown := by
  cases a with
  | Run => simp [Action.isRun] at hrun
  | recvRestart tid => simp [Action.isRecvRestart] at hres
  | AddGokit i =>
    simp only [step, Option.some.injEq] at h
    subst h
    obtain ⟨f1, f2, -, f4, -, f6, f7, f8⟩ := lockedGetOrCreate_frame i.Tag s
    refine ⟨?_, ⟨[], ?_, ?_⟩, ?_, ?_, ?_, ?_⟩ <;>
      simp [controls, executions, f1, f2, f4, f6, f7, f8, Thread.control, Thread.isExe]
  | AddGokitFunc f tag identifier =>
    simp only [step, Option.some.injEq] at h
    subst h
    obtain ⟨f1, f2, -, f4, -, f6, f7, f8⟩ := lockedGetOrCreate_frame tag s
    refine ⟨?_, ⟨[], ?_, ?_⟩, ?_, ?_, ?_, ?_⟩ <;>
      simp [controls, executions, f1, f2, f4, f6, f7, f8, Thread.control, Thread.isExe]
  | Pause =>
    simp only [step, Option.some.injEq] at h
    subst h
    exact ⟨rfl, ⟨[], by simp⟩, rfl, Nat.le_succ _, Nat.le_refl _, Nat.le_refl _⟩
  | Restart =>
    simp only [step, Option.some.injEq] at h
    subst h
    exact ⟨rfl, ⟨[], by simp⟩, rfl, Nat.le_refl _, Nat.le_succ _, Nat.le_refl _⟩
  | Shutdown =>
    simp only [step, Option.some.injEq] at h
    subst h
    exact ⟨rfl, ⟨[], by simp⟩, rfl, Nat.le_refl _, Nat.le_refl _, Nat.le_succ _⟩
  | Next bus =>
    simp only [step] at h
    (repeat' split at h) <;> (try (cases h; done))
    cases h
    exact ⟨rfl, ⟨[], by simp⟩, rfl, Nat.le_refl _, Nat.le_refl _, Nat.le_refl _⟩
  | recvPause tid =>
    simp only [step] at h
    split at h
    · next ht => exact absurd rfl (hq _ (mem_of_getElem?_eq _ _ _ ht))
    · cases h
  | recvShutdown tid =>
    simp only [step] at h
    split at h
    · next ht => exact absurd rfl (hq _ (mem_of_getElem?_eq _ _ _ ht))
    · cases h
  | timeout tid =>
    simp only [step] at h
    split at h
    · next ht => exact absurd rfl (hq _ (mem_of_getElem?_eq _ _ _ ht))
    · cases h
  | handoff tid sender =>
    simp only [step] at h
    split at h
    · next ht hs => exact absurd rfl (hq _ (mem_of_getElem?_eq _ _ _ ht))
    · cases h
  | raceMiss tid =>
    simp only [step, System.setThread] at h
    split at h
    · next gkt err seen ht =>
      split at h
      · cases h
        refine ⟨filterMap_set_same _ _ _ _ _ ht rfl,
          ⟨[], (List.append_nil _).symm, (List.append_nil _).symm⟩, ?_,
          Nat.le_refl _, Nat.le_refl _, Nat.le_refl _⟩
        simp only [executions, countP_set_eq _ _ _ _ _ ht, Thread.isExe,
          eq_self_iff_true, if_true]
        have := countP_pos_of_getElem? Thread.isExe _ _ _ ht rfl
        omega
      · cases h
    · cases h
  | step tid =>
    simp only [step] at h
    split at h
    · cases h
    · next th hth =>
      have hc := hq _ (mem_of_getElem?_eq _ _ _ hth)
      cases th <;> simp only [stepThread, System.setThread, Thread.control, ne_eq,
          not_true_eq_false] at h hc <;>
        (repeat' split at h) <;> (try (cases h; done)) <;>
        (simp only [Option.some.injEq] at h; subst h
         refine ⟨?_, ?_, ?_, Nat.le_refl _, Nat.le_refl _, Nat.le_refl _⟩
         · exact filterMap_set_same _ _ _ _ _ hth rfl
         · first
           | exact ⟨[_], rfl, rfl⟩
           | exact ⟨[], (List.append_nil _).symm, (List.append_nil _).symm⟩
         · simp only [executions, countP_set_eq _ _ _ _ _ hth, Thread.isExe,
             eq_self_iff_true, if_true, if_false, Bool.false_eq_true]
           have := countP_pos_of_getElem? Thread.isExe _ _ _ hth
           simp only [Thread.isExe, eq_self_iff_true, true_implies, Bool.false_eq_true,
             false_implies] at this
           omega)

theorem not_running_iff (s : System) :
    (∀ c ∈ controls s, c ≠ .RUNNING) ↔ ∀ th ∈ s.threads, th.control ≠ some .RUNNING := by
  simp only [controls, List.mem_filterMap]
  constructor
  · intro h th hth hc
    exact h _ ⟨th, hth, hc⟩ rfl
  · rintro h c ⟨th, hth, hc⟩ rfl
    exact h th hth hc

theorem quiet_exec {s s' : System} (acts : List Action)
    (hq : ∀ c ∈ controls s, c ≠ .RUNNING)
    (hrun : noRun acts) (hres : noRecvRestart acts)
    (h : exec acts s = some s') :
    controls s' = controls s ∧
    (∃ new, s'.submitted = s.submitted ++ new ∧
      s'.gok.gokitQueue = s.gok.gokitQueue ++ new) ∧
    executions s' = executions s ∧
    s.gok.pause ≤ s'.gok.pause ∧ s.gok.restart ≤ s'.gok.restart ∧
    s.gok.shutdown ≤ s'.gok.shutdown := by
  induction acts generalizing s with
  | nil =>
    simp only [exec, Option.some.injEq] at h
    subst h
    exact ⟨rfl, ⟨[], by simp⟩, rfl, Nat.le_refl _, Nat.le_refl _, Nat.le_refl _⟩
  | cons a rest ih =>
    simp only [exec] at h
    split at h
    · cases h
    · next s1 h1 =>
      obtain ⟨c1, ⟨n1, e1, q1⟩, x1, p1, r1, d1⟩ :=
        quiet_step a ((not_running_iff s).mp hq) (hrun a (List.mem_cons_self _ _))
          (hres a (List.mem_cons_self _ _)) h1
      obtain ⟨c2, ⟨n2, e2, q2⟩, x2, p2, r2, d2⟩ :=
        ih (c1 ▸ hq) (fun b hb => hrun b (List.mem_cons_of_mem _ hb))
          (fun b hb => hres b (List.mem_cons_of_mem _ hb)) h
      refine ⟨c2.trans c1, ⟨n1 ++ n2, ?_, ?_⟩, x2.trans x1, by omega, by omega, by omega⟩
      · rw [e2, e1, List.append_assoc]
      · rw [q2, q1, List.append_assoc]

/-- A restart signal can only be received by a paused dispatch goroutine. -/
theorem recvRestart_needs_paused {s s' : System} (tid : Nat)
    (h : step (.recvRestart tid) s = some s') : Control.PAUSED ∈ controls s := by
  simp only [step] at h
  split at h
  · next ht =>
    simp only [controls, List.mem_filterMap]
    exact ⟨_, mem_of_getElem?_eq _ _ _ ht, rfl⟩
  · cases h

theorem done_exec {s s' : System} (acts : List Action)
    (hd : ∀ c ∈ controls s, c = .SHUTDOWN) (hrun : noRun acts)
    (h : exec acts s = some s') :
    controls s' = controls s ∧
    (∃ new, s'.submitted = s.submitted ++ new ∧
      s'.gok.gokitQueue = s.gok.gokitQueue ++ new) ∧
    executions s' = executions s ∧
    s.gok.pause ≤ s'.gok.pause ∧ s.gok.restart ≤ s'.gok.restart ∧
    s.gok.shutdown ≤ s'.gok.shutdown := by
  induction acts generalizing s with
  | nil =>
    simp only [exec, Option.some.injEq] at h
    subst h
    exact ⟨rfl, ⟨[], by simp⟩, rfl, Nat.le_refl _, Nat.le_refl _, Nat.le_refl _⟩
  | cons a rest ih =>
    simp only [exec] at h
    split at h
    · cases h
    · next s1 h1 =>
      have hq : ∀ c ∈ controls s, c ≠ .RUNNING := fun c hc e => by
        have := hd c hc
        rw [e] at this
        cases this
      have hres : a.isRecvRestart = false := by
        cases a with
        | recvRestart tid =>
          have := hd _ (recvRestart_needs_paused tid h1)
          cases this
        | _ => rfl
      obtain ⟨c1, ⟨n1, e1, q1⟩, x1, p1, r1, d1⟩ :=
        quiet_step a ((not_running_iff s).mp hq) (hrun a (List.mem_cons_self _ _)) hres h1
      obtain ⟨c2, ⟨n2, e2, q2⟩, x2, p2, r2, d2⟩ :=
        ih (c1 ▸ hd) (fun b hb => hrun b (List.mem_cons_of_mem _ hb)) h
      refine ⟨c2.trans c1, ⟨n1 ++ n2, ?_, ?_⟩, x2.trans x1, by omega, by omega, by omega⟩
      · rw [e2, e1, List.append_assoc]
      · rw [q2, q1, List.append_assoc]

/-- C5: from a state in which every dispatch goroutine is paused, along any
schedule that contains no receive of a restart signal (and no further call of
`Run`), nothing is removed from the queue and no execute goroutine is started:
the queue is its content at pause time followed by the tasks submitted since,
in submission order, the dispatch goroutines stay paused, and the receive of
the restart signal itself leaves the queue as it is. -/
theorem paused_keeps_queue (s s' : System) (acts : List Action)
    (hp : ∀ c ∈ controls s, c = .PAUSED) (hrun : noRun acts) (hres : noRecvRestart acts)
    (h : exec acts s = some s') :
    (∃ new, s'.submitted = s.submitted ++ new ∧
      s'.gok.gokitQueue = s.gok.gokitQueue ++ new) ∧
    executions s' = executions s ∧
    controls s' = controls s ∧
    (∀ tid s'', step (.recvRestart tid) s' = some s'' →
      s''.gok.gokitQueue = s'.gok.gokitQueue ∧ executions s'' = executions s') := by
  have hq : ∀ c ∈ controls s, c ≠ .RUNNING := fun c hc e => by
    have := hp c hc
    rw [e] at this
    cases this
  obtain ⟨c1, hnew, x1, -⟩ := quiet_exec acts hq hrun hres h
  refine ⟨hnew, x1, c1, ?_⟩
  intro tid s'' hstep
  simp only [step] at hstep
  split at hstep
  · next ht =>
    split at hstep
    · cases hstep
      refine ⟨rfl, ?_⟩
      simp only [executions, countP_set_eq _ _ _ _ _ ht, Thread.isExe, if_false,
        Bool.false_eq_true]
      omega
    · cases hstep
  · cases hstep

/-- C5 on the schedule `duringPause` run from the paused state reached by
`pausedSchedule`: the queue grows from `a` to `a, b` and nothing is started. -/
theorem paused_keeps_queue_witness :
    controls (stateAfter pausedSchedule 2 1) = [.PAUSED] ∧
    exec duringPause (stateAfter pausedSchedule 2 1) =
      some (stateAfter (pausedSchedule ++ duringPause) 2 1) ∧
    (stateAfter pausedSchedule 2 1).gok.gokitQueue.map Gokit.Identifier = ["a"] ∧
    (stateAfter (pausedSchedule ++ duringPause) 2 1).gok.gokitQueue.map Gokit.Identifier =
      ["a", "b"] ∧
    executions (stateAfter (pausedSchedule ++ duringPause) 2 1) =
      executions (stateAfter pausedSchedule 2 1) ∧
    controls (stateAfter (pausedSchedule ++ duringPause) 2 1) =
      controls (stateAfter pausedSchedule 2 1) :=
  ⟨rfl, rfl, rfl, rfl,
    (paused_keeps_queue (stateAfter pausedSchedule 2 1)
      (stateAfter (pausedSchedule ++ duringPause) 2 1) duringPause
      (by decide) (by unfold noRun; decide) (by unfold noRecvRestart; decide) rfl).2.1,
    (paused_keeps_queue (stateAfter pausedSchedule 2 1)
      (stateAfter (pausedSchedule ++ duringPause) 2 1) duringPause
      (by decide) (by unfold noRun; decide) (by unfold noRecvRestart; decide) rfl).2.2.1⟩

/-! ## Completion of an admitted task -/

theorem exec_append (a b : List Action) (s : System) :
    exec (a ++ b) s = (exec a s).bind (exec b) := by
  induction a generalizing s with
  | nil => simp [exec]
  | cons x xs ih =>
    simp only [List.cons_append, exec]
    cases step x s with
    | none => rfl
    | some s1 => exact ih s1

theorem lt_length_of_getElem? {α : Type} (l : List α) (i : Nat) (a : α)
    (h : l[i]? = some a) : i < l.length := by
  by_contra hc
  rw [List.getElem?_eq_none (by omega)] at h
  simp at h

/-- Consumers can take `n` outcomes from a bus that holds at least `n`. -/
theorem drain_bus (n : Nat) (s : System) (b : Nat) (eb : ErrorBus)
    (heb : s.heap[b]? = some eb) (hn : n ≤ eb.ch.length) :
    ∃ s' eb', exec (List.replicate n (.Next b)) s = some s' ∧
      s'.threads = s.threads ∧ s'.published = s.published ∧
      s'.gok.errorBuses = s.gok.errorBuses ∧
      s'.heap[b]? = some eb' ∧ eb'.ch.length = eb.ch.length - n := by
  induction n generalizing s eb with
  | zero => exact ⟨s, eb, rfl, rfl, rfl, rfl, heb, rfl⟩
  | succ k ih =>
    cases hch : eb.ch with
    | nil => simp [hch] at hn
    | cons e rest =>
      have hlt := lt_length_of_getElem? _ _ _ heb
      have h1 : step (.Next b) s = some { s with heap := s.heap.set b { eb with ch := rest } } := by
        simp [step, heb, ErrorBus.Next, hch]
      have heb1 : ({ s with heap := s.heap.set b { eb with ch := rest } } : System).heap[b]? =
          some { eb with ch := rest } := by
        simp [List.getElem?_set_self, hlt]
      obtain ⟨s', eb', e1, e2, e3, e4, e5, e6⟩ :=
        ih { s with heap := s.heap.set b { eb with ch := rest } } { eb with ch := rest } heb1
          (by simp [hch] at hn ⊢; omega)
      refine ⟨s', eb', ?_, e2, e3, e4, e5, ?_⟩
      · simp only [List.replicate_succ, exec, h1]
        exact e1
      · simp only [e6, hch, List.length_cons]
        omega

/-- From `errBus.Add` an execution completes after the consumers have made
room on the bus, and publishes the outcome it holds. -/
theorem finish_from_add {s : System} (tid : Nat) (gkt : Gokit) (err : GoError) (b : Nat)
    (eb : ErrorBus) (hth : s.threads[tid]? = some (.exeAdd gkt err b))
    (heb : s.heap[b]? = some eb) :
    ∃ acts s', noRun acts ∧ exec acts s = some s' ∧
      s'.threads[tid]? = some (.exeDone gkt) ∧
      s'.published = s.published ++
        [{ task := gkt, bus := b, outcome := { Identifier := gkt.Identifier, Err := err } }] := by
  obtain ⟨s1, eb1, e1, e2, e3, -, e5, e6⟩ :=
    drain_bus (eb.ch.length - 99) s b eb heb (Nat.sub_le _ _)
  have hth1 : s1.threads[tid]? = some (.exeAdd gkt err b) := by rw [e2]; exact hth
  have hlt := lt_length_of_getElem? _ _ _ hth1
  have hroom : eb1.ch.length < defaultErrorBusChanCapacity := by
    simp only [defaultErrorBusChanCapacity]
    omega
  have hrun : noRun (List.replicate (eb.ch.length - 99) (.Next b) ++
      [.step tid, .step tid]) := by
    intro a ha
    rcases List.mem_append.mp ha with h | h
    · rw [(List.mem_replicate.mp h).2]; rfl
    · simp only [List.mem_cons, List.mem_singleton, List.not_mem_nil, or_false, or_self] at h
      rw [h]; rfl
  have h2 : ∃ s2, exec [.step tid, .step tid] s1 = some s2 ∧
      s2.threads[tid]? = some (.exeDone gkt) ∧
      s2.published = s.published ++
        [{ task := gkt, bus := b, outcome := { Identifier := gkt.Identifier, Err := err } }] := by
    simp [exec, step, stepThread, hth1, e5, ErrorBus.Add, hroom, hlt,
      List.getElem?_set_self, e3]
  obtain ⟨s2, x1, x2, x3⟩ := h2
  refine ⟨_, s2, hrun, ?_, x2, x3⟩
  rw [exec_append, e1]
  exact x1

/-- An execution that has not yet published reaches `errBus.Add` by its own
steps, with the bus registered for its task's tag and the task's result. -/
theorem reach_add {s : System} (hI : Inv s) (tid : Nat) (th : Thread) (gkt : Gokit)
    (hth : s.threads[tid]? = some th) (hexe : th.isExe = true)
    (hholds : th.holds = some gkt) :
    ∃ k s1 b eb, exec (List.replicate k (.step tid)) s = some s1 ∧
      mapGet s.gok.errorBuses gkt.Tag = some b ∧
      s1.threads[tid]? = some (.exeAdd gkt (gkt.Execute ()) b) ∧
      s1.heap[b]? = some eb ∧ s1.published = s.published := by
  have hw := hI.threads_wf _ (mem_of_getElem?_eq _ _ _ hth)
  have hlt := lt_length_of_getElem? _ _ _ hth
  have hr := hw.2.1 gkt hholds
  cases hm : mapGet s.gok.errorBuses gkt.Tag with
  | none => exact absurd hm hr
  | some b =>
  have hh := hI.reg_heap _ _ hm
  cases hb : s.heap[b]? with
  | none => simp [hb] at hh
  | some eb =>
  cases th with
  | exeStart g =>
    simp only [Thread.holds, Option.some.injEq] at hholds
    subst hholds
    have h1 : ∃ s1, exec (List.replicate 6 (.step tid)) s = some s1 ∧
        s1.threads[tid]? = some (.exeAdd g (g.Execute ()) b) ∧
        s1.heap[b]? = some eb ∧ s1.published = s.published := by
      simp [List.replicate, exec, step, stepThread, System.setThread, hth, hlt, hm, hb,
        List.getElem?_set_self]
    obtain ⟨s1, x1, x2, x3, x4⟩ := h1
    exact ⟨6, s1, b, eb, x1, rfl, x2, x3, x4⟩
  | exeIncRunning g =>
    simp only [Thread.holds, Option.some.injEq] at hholds
    subst hholds
    have h1 : ∃ s1, exec (List.replicate 5 (.step tid)) s = some s1 ∧
        s1.threads[tid]? = some (.exeAdd g (g.Execute ()) b) ∧
        s1.heap[b]? = some eb ∧ s1.published = s.published := by
      simp [List.replicate, exec, step, stepThread, System.setThread, hth, hlt, hm, hb,
        List.getElem?_set_self]
    obtain ⟨s1, x1, x2, x3, x4⟩ := h1
    exact ⟨5, s1, b, eb, x1, rfl, x2, x3, x4⟩
  | exeCall g =>
    simp only [Thread.holds, Option.some.injEq] at hholds
    subst hholds
    have h1 : ∃ s1, exec (List.replicate 4 (.step tid)) s = some s1 ∧
        s1.threads[tid]? = some (.exeAdd g (g.Execute ()) b) ∧
        s1.heap[b]? = some eb ∧ s1.published = s.published := by
      simp [List.replicate, exec, step, stepThread, System.setThread, hth, hlt, hm, hb,
        List.getElem?_set_self]
    obtain ⟨s1, x1, x2, x3, x4⟩ := h1
    exact ⟨4, s1, b, eb, x1, rfl, x2, x3, x4⟩
  | exeDecRunning g err =>
    simp only [Thread.holds, Option.some.injEq] at hholds
    subst hholds
    have herr : err = g.Execute () := hw.2.2.2 g err rfl
    subst herr
    have h1 : ∃ s1, exec (List.replicate 3 (.step tid)) s = some s1 ∧
        s1.threads[tid]? = some (.exeAdd g (g.Execute ()) b) ∧
        s1.heap[b]? = some eb ∧ s1.published = s.published := by
      simp [List.replicate, exec, step, stepThread, System.setThread, hth, hlt, hm, hb,
        List.getElem?_set_self]
    obtain ⟨s1, x1, x2, x3, x4⟩ := h1
    exact ⟨3, s1, b, eb, x1, rfl, x2, x3, x4⟩
  | exeLookup g err =>
    simp only [Thread.holds, Option.some.injEq] at hholds
    subst hholds
    have herr : err = g.Execute () := hw.2.2.2 g err rfl
    subst herr
    have h1 : ∃ s1, exec (List.replicate 2 (.step tid)) s = some s1 ∧
        s1.threads[tid]? = some (.exeAdd g (g.Execute ()) b) ∧
        s1.heap[b]? = some eb ∧ s1.published = s.published := by
      simp [List.replicate, exec, step, stepThread, System.setThread, hth, hlt, hm, hb,
        List.getElem?_set_self]
    obtain ⟨s1, x1, x2, x3, x4⟩ := h1
    exact ⟨2, s1, b, eb, x1, rfl, x2, x3, x4⟩
  | exeReading g err seen =>
    simp only [Thread.holds, Option.some.injEq] at hholds
    subst hholds
    have herr : err = g.Execute () := hw.2.2.2 g err rfl
    subst herr
    have h1 : ∃ s1, exec (List.replicate 1 (.step tid)) s = some s1 ∧
        s1.threads[tid]? = some (.exeAdd g (g.Execute ()) b) ∧
        s1.heap[b]? = some eb ∧ s1.published = s.published := by
      simp [List.replicate, exec, step, stepThread, System.setThread, hth, hlt, hm, hb,
        List.getElem?_set_self]
    obtain ⟨s1, x1, x2, x3, x4⟩ := h1
    exact ⟨1, s1, b, eb, x1, rfl, x2, x3, x4⟩
  | exeAdd g err b' =>
    simp only [Thread.holds, Option.some.injEq] at hholds
    subst hholds
    have herr : err = g.Execute () := hw.2.2.2 g err rfl
    have hb' : mapGet s.gok.errorBuses g.Tag = some b' := hw.2.2.1 g b' rfl
    rw [hm] at hb'
    simp only [Option.some.injEq] at hb'
    subst herr hb'
    exact ⟨0, s, b, eb, rfl, rfl, hth, hb, rfl⟩
  | exeRelease g => simp [Thread.holds] at hholds
  | exeDone g => simp [Thread.holds] at hholds
  | _ => simp [Thread.isExe] at hexe

/-- Every execute goroutine can run to its end, whatever the control state:
it reaches `exeDone`, and if it had not yet published, exactly its outcome has
been added to the publication history. -/
theorem exe_finish {s : System} (hI : Inv s) (tid : Nat) (th : Thread)
    (hth : s.threads[tid]? = some th) (hexe : th.isExe = true) :
    ∃ acts s' gkt, noRun acts ∧ exec acts s = some s' ∧ th.task = some gkt ∧
      s'.threads[tid]? = some (.exeDone gkt) ∧
      (th.holds = some gkt → ∃ b, mapGet s.gok.errorBuses gkt.Tag = some b ∧
        s'.published = s.published ++
          [{ task := gkt, bus := b,
             outcome := { Identifier := gkt.Identifier, Err := gkt.Execute () } }]) := by
  have hlt := lt_length_of_getElem? _ _ _ hth
  cases hh : th.holds with
  | some gkt =>
    obtain ⟨k, s1, b, eb, x1, x2, x3, x4, x5⟩ := reach_add hI tid th gkt hth hexe hh
    obtain ⟨acts, s2, y1, y2, y3, y4⟩ := finish_from_add tid gkt _ b eb x3 x4
    refine ⟨List.replicate k (.step tid) ++ acts, s2, gkt, ?_, ?_, ?_, y3, ?_⟩
    · intro a ha
      rcases List.mem_append.mp ha with h | h
      · rw [(List.mem_replicate.mp h).2]; rfl
      · exact y1 a h
    · rw [exec_append, x1]
      exact y2
    · cases th <;> simp_all [Thread.holds, Thread.task, Thread.isExe]
    · intro _
      exact ⟨b, x2, by rw [y4, x5]⟩
  | none =>
    cases th with
    | exeRelease g =>
      have h1 : ∃ s1, exec [.step tid] s = some s1 ∧
          s1.threads[tid]? = some (.exeDone g) := by
        simp [exec, step, stepThread, hth, hlt, List.getElem?_set_self]
      obtain ⟨s1, x1, x2⟩ := h1
      refine ⟨[.step tid], s1, g, ?_, x1, rfl, x2, ?_⟩
      · intro a ha
        simp only [List.mem_singleton] at ha
        rw [ha]; rfl
      · intro h; cases h
    | exeDone g =>
      refine ⟨[], s, g, ?_, rfl, rfl, hth, ?_⟩
      · intro a ha
        cases ha
      · intro h; cases h
    | _ =>
      first
      | exact absurd hexe Bool.false_ne_true
      | exact absurd hh (Option.some_ne_none _)

/-! ## The control state machine -/

/-- The goroutines an action makes a move of. -/
theorem step_other_thread {s s' : System} (a : Action) (h : step a s = some s')
    (tid : Nat) (th : Thread) (hth : s.threads[tid]? = some th) :
    s'.threads[tid]? = some th ∨
    a = .step tid ∨ a = .recvPause tid ∨ a = .recvShutdown tid ∨ a = .recvRestart tid ∨
    a = .timeout tid ∨ (∃ x, a = .handoff tid x) ∨ (∃ x, a = .handoff x tid) ∨
    a = .raceMiss tid := by
  have hlt := lt_length_of_getElem? _ _ _ hth
  cases a with
  | AddGokit i =>
    simp only [step, Option.some.injEq] at h
    subst h
    left
    simp [(lockedGetOrCreate_frame i.Tag s).1, List.getElem?_append_left hlt, hth]
  | AddGokitFunc f tag identifier =>
    simp only [step, Option.some.injEq] at h
    subst h
    left
    simp [(lockedGetOrCreate_frame tag s).1, List.getElem?_append_left hlt, hth]
  | Run =>
    simp only [step, Option.some.injEq] at h
    subst h
    left
    simp [List.getElem?_append_left hlt, hth]
  | Pause => simp only [step, Option.some.injEq] at h; subst h; exact Or.inl hth
  | Restart => simp only [step, Option.some.injEq] at h; subst h; exact Or.inl hth
  | Shutdown => simp only [step, Option.some.injEq] at h; subst h; exact Or.inl hth
  | Next bus =>
    simp only [step] at h
    (repeat' split at h) <;> (try (cases h; done))
    cases h
    exact Or.inl hth
  | step t =>
    by_cases e : t = tid
    · exact Or.inr (Or.inl (by rw [e]))
    · left
      simp only [step] at h
      split at h
      · cases h
      · next th' _ =>
        cases th' <;> simp only [stepThread, System.setThread] at h <;>
          (repeat' split at h) <;> (try (cases h; done)) <;>
          (simp only [Option.some.injEq] at h; subst h
           simp [List.getElem?_set_ne e, List.getElem?_append_left, hlt, hth])
  | recvPause t =>
    by_cases e : t = tid
    · exact Or.inr (Or.inr (Or.inl (by rw [e])))
    · left
      simp only [step] at h
      (repeat' split at h) <;> (try (cases h; done))
      cases h
      simp [List.getElem?_set_ne e, hth]
  | recvShutdown t =>
    by_cases e : t = tid
    · exact Or.inr (Or.inr (Or.inr (Or.inl (by rw [e]))))
    · left
      simp only [step] at h
      (repeat' split at h) <;> (try (cases h; done))
      cases h
      simp [List.getElem?_set_ne e, hth]
  | recvRestart t =>
    by_cases e : t = tid
    · exact Or.inr (Or.inr (Or.inr (Or.inr (Or.inl (by rw [e])))))
    · left
      simp only [step] at h
      (repeat' split at h) <;> (try (cases h; done))
      cases h
      simp [List.getElem?_set_ne e, hth]
  | timeout t =>
    by_cases e : t = tid
    · exact Or.inr (Or.inr (Or.inr (Or.inr (Or.inr (Or.inl (by rw [e]))))))
    · left
      simp only [step, System.setThread] at h
      (repeat' split at h) <;> (try (cases h; done))
      cases h
      simp [List.getElem?_set_ne e, hth]
  | handoff t sender =>
    by_cases e : t = tid
    · exact Or.inr (Or.inr (Or.inr (Or.inr (Or.inr (Or.inr (Or.inl ⟨sender, by rw [e]⟩))))))
    · by_cases e2 : sender = tid
      · exact Or.inr (Or.inr (Or.inr (Or.inr (Or.inr (Or.inr (Or.inr
          (Or.inl ⟨t, by rw [e2]⟩)))))))
      · left
        simp only [step] at h
        (repeat' split at h) <;> (try (cases h; done))
        cases h
        simp [List.getElem?_set_ne e, List.getElem?_set_ne e2, hth]
  | raceMiss t =>
    by_cases e : t = tid
    · exact Or.inr (Or.inr (Or.inr (Or.inr (Or.inr (Or.inr (Or.inr
        (Or.inr (by rw [e]))))))))
    · left
      simp only [step, System.setThread] at h
      (repeat' split at h) <;> (try (cases h; done))
      cases h
      simp [List.getElem?_set_ne e, hth]

/-- A paused dispatch goroutine moves only by receiving a restart signal. -/
theorem paused_step {s s' : System} (a : Action) (h : step a s = some s') (tid : Nat)
    (hth : s.threads[tid]? = some .runPaused) :
    s'.threads[tid]? = some .runPaused ∨
    (a = .recvRestart tid ∧ s'.threads[tid]? = some .runSelect ∧
      s'.gok.restart + 1 = s.gok.restart) := by
  have hlt := lt_length_of_getElem? _ _ _ hth
  rcases step_other_thread a h tid _ hth with
    h1 | h1 | h1 | h1 | h1 | h1 | ⟨x, h1⟩ | ⟨x, h1⟩ | h1
  · exact Or.inl h1
  · subst h1; simp [step, hth, stepThread] at h
  · subst h1; simp [step, hth] at h
  · subst h1; simp [step, hth] at h
  · subst h1
    right
    simp only [step, hth] at h
    split at h
    · cases h
      refine ⟨rfl, by simp [List.getElem?_set_self, hlt], ?_⟩
      show s.gok.restart - 1 + 1 = s.gok.restart
      omega
    · cases h
  · subst h1; simp [step, hth] at h
  · subst h1; simp [step, hth] at h
  · subst h1
    simp only [step, hth] at h
    (repeat' split at h) <;> (try (cases h; done))
    all_goals simp_all
  · subst h1; simp [step, hth] at h

/-- Which transition consumes which signal. -/
theorem signal_consumption {s s' : System} (a : Action) (h : step a s = some s') :
    (s'.gok.pause < s.gok.pause →
      ∃ tid, a = .recvPause tid ∧ s.threads[tid]? = some .runSelect) ∧
    (s'.gok.shutdown < s.gok.shutdown →
      ∃ tid, a = .recvShutdown tid ∧ s.threads[tid]? = some .runSelect) ∧
    (s'.gok.restart < s.gok.restart →
      ∃ tid, a = .recvRestart tid ∧ s.threads[tid]? = some .runPaused) := by
  cases a with
  | AddGokit i =>
    simp only [step, Option.some.injEq] at h
    subst h
    obtain ⟨-, -, -, -, -, f6, f7, f8⟩ := lockedGetOrCreate_frame i.Tag s
    simp [f6, f7, f8]
  | AddGokitFunc f tag identifier =>
    simp only [step, Option.some.injEq] at h
    subst h
    obtain ⟨-, -, -, -, -, f6, f7, f8⟩ := lockedGetOrCreate_frame tag s
    simp [f6, f7, f8]
  | step t =>
    simp only [step] at h
    split at h
    · cases h
    · next th' _ =>
      cases th' <;> simp only [stepThread, System.setThread] at h <;>
        (repeat' split at h) <;> (try (cases h; done)) <;>
        (simp only [Option.some.injEq] at h; subst h; simp)
  | recvPause t =>
    simp only [step] at h
    split at h
    · next ht =>
      split at h
      · cases h
        refine ⟨fun _ => ⟨t, rfl, ht⟩, ?_, ?_⟩ <;> simp
      · cases h
    · cases h
  | recvShutdown t =>
    simp only [step] at h
    split at h
    · next ht =>
      split at h
      · cases h
        refine ⟨?_, fun _ => ⟨t, rfl, ht⟩, ?_⟩ <;> simp
      · cases h
    · cases h
  | recvRestart t =>
    simp only [step] at h
    split at h
    · next ht =>
      split at h
      · cases h
        refine ⟨?_, ?_, fun _ => ⟨t, rfl, ht⟩⟩ <;> simp
      · cases h
    · cases h
  | _ =>
    simp only [step, System.setThread] at h
    (repeat' split at h) <;> (try (cases h; done))
    all_goals (cases h; simp)

/-- A dispatch goroutine returns only by receiving a shutdown signal at its
outer `select`. -/
theorem done_step {s s' : System} (a : Action) (h : step a s = some s') (tid : Nat)
    (hd : s'.threads[tid]? = some .runDone) :
    s.threads[tid]? = some .runDone ∨
    (a = .recvShutdown tid ∧ s.threads[tid]? = some .runSelect) := by
  cases hth : s.threads[tid]? with
  | none =>
    exfalso
    have hge : s.threads.length ≤ tid := by
      by_contra hc
      have := List.getElem?_eq_getElem (l := s.threads) (n := tid) (by omega)
      rw [hth] at this
      cases this
    cases a with
    | AddGokit i =>
      simp only [step, Option.some.injEq] at h
      subst h
      simp only [(lockedGetOrCreate_frame i.Tag s).1] at hd
      rw [List.getElem?_append_right hge] at hd
      cases hx : tid - s.threads.length <;> simp [hx] at hd
    | AddGokitFunc f tag identifier =>
      simp only [step, Option.some.injEq] at h
      subst h
      simp only [(lockedGetOrCreate_frame tag s).1] at hd
      rw [List.getElem?_append_right hge] at hd
      cases hx : tid - s.threads.length <;> simp [hx] at hd
    | Run =>
      simp only [step, Option.some.injEq] at h
      subst h
      simp only at hd
      rw [List.getElem?_append_right hge] at hd
      cases hx : tid - s.threads.length <;> simp [hx] at hd
    | step t =>
      simp only [step] at h
      split at h
      · cases h
      · next th' _ =>
        cases th' <;> simp only [stepThread, System.setThread] at h <;>
          (repeat' split at h) <;> (try (cases h; done)) <;>
          (simp only [Option.some.injEq] at h; subst h
           simp only [List.getElem?_set, List.getElem?_append_right,
             List.length_set, hge] at hd
           first
           | (split at hd <;> simp_all)
           | (cases hx : tid - s.threads.length <;> simp [hx] at hd))
    | handoff t sender =>
      simp only [step] at h
      (repeat' split at h) <;> (try (cases h; done))
      cases h
      simp only [List.getElem?_set] at hd
      (repeat' split at hd) <;> simp_all
    | _ =>
      simp only [step, System.setThread] at h
      (repeat' split at h) <;> (try (cases h; done))
      all_goals
        cases h
        first
        | (rw [hth] at hd; cases hd)
        | (simp only [List.getElem?_set] at hd
           (repeat' split at hd) <;> (try simp_all) <;> omega)
  | some th =>
    have hlt := lt_length_of_getElem? _ _ _ hth
    rcases step_other_thread a h tid _ hth with
      h1 | h1 | h1 | h1 | h1 | h1 | ⟨x, h1⟩ | ⟨x, h1⟩ | h1
    · rw [hd] at h1
      exact Or.inl (by rw [← Option.some.inj h1])
    · subst h1
      exfalso
      simp only [step, hth] at h
      cases th <;> simp only [stepThread, System.setThread] at h <;>
        (repeat' split at h) <;> (try (cases h; done)) <;>
        (simp only [Option.some.injEq] at h; subst h
         simp [List.getElem?_set_self, hlt, List.getElem?_append_left] at hd)
    · subst h1
      exfalso
      simp only [step, hth] at h
      (repeat' split at h) <;> (try (cases h; done))
      cases h
      simp [List.getElem?_set_self, hlt] at hd
    · subst h1
      right
      simp only [step, hth] at h
      (repeat' split at h) <;> (try (cases h; done))
      exact ⟨rfl, by simp_all⟩
    · subst h1
      exfalso
      simp only [step, hth] at h
      (repeat' split at h) <;> (try (cases h; done))
      cases h
      simp [List.getElem?_set_self, hlt] at hd
    · subst h1
      exfalso
      simp only [step, hth, System.setThread] at h
      (repeat' split at h) <;> (try (cases h; done))
      cases h
      simp [List.getElem?_set_self, hlt] at hd
    · subst h1
      exfalso
      simp only [step, hth] at h
      (repeat' split at h) <;> (try (cases h; done))
      cases h
      simp only [List.getElem?_set] at hd
      (repeat' split at hd) <;> simp_all
    · subst h1
      exfalso
      simp only [step, hth] at h
      (repeat' split at h) <;> (try (cases h; done))
      cases h
      simp only [List.getElem?_set] at hd
      (repeat' split at hd) <;> simp_all
    · subst h1
      exfalso
      simp only [step, hth, System.setThread] at h
      (repeat' split at h) <;> (try (cases h; done))
      cases h
      simp [List.getElem?_set_self, hlt] at hd

theorem paused_until_restart {s s' : System} (acts : List Action) (tid : Nat)
    (h : exec acts s = some s') (hth : s.threads[tid]? = some .runPaused)
    (hno : Action.recvRestart tid ∉ acts) : s'.threads[tid]? = some .runPaused := by
  induction acts generalizing s with
  | nil =>
    simp only [exec, Option.some.injEq] at h
    exact h ▸ hth
  | cons a rest ih =>
    simp only [exec] at h
    split at h
    · cases h
    · next s1 h1 =>
      rcases paused_step a h1 tid hth with hp | ⟨ha, -⟩
      · exact ih h hp (fun hm => hno (List.mem_cons_of_mem _ hm))
      · exact absurd (ha ▸ List.mem_cons_self _ _) hno

/-- C6: from a reachable state in which every dispatch goroutine has returned
after receiving a shutdown signal, along any schedule without a further call
of `Run`: nothing is ever removed from the queue, whatever it contains (it
only grows by the tasks submitted since), no execute goroutine is started, no
control state changes and no pause, restart or shutdown signal is consumed;
and every execute goroutine that exists can still run to its end, publishing
its outcome if it had not yet done so. -/
theorem shutdown_terminal (capacity concurrency : Nat) (s s' : System)
    (acts : List Action) (hr : Reachable capacity concurrency s)
    (hd : ∀ c ∈ controls s, c = .SHUTDOWN) (hrun : noRun acts)
    (h : exec acts s = some s') :
    (∃ new, s'.submitted = s.submitted ++ new ∧
      s'.gok.gokitQueue = s.gok.gokitQueue ++ new) ∧
    executions s' = executions s ∧
    controls s' = controls s ∧
    s.gok.pause ≤ s'.gok.pause ∧ s.gok.restart ≤ s'.gok.restart ∧
    s.gok.shutdown ≤ s'.gok.shutdown ∧
    (∀ (tid : Nat) (th : Thread), s'.threads[tid]? = some th → th.isExe = true →
      ∃ more s'' gkt, noRun more ∧ exec more s' = some s'' ∧ th.task = some gkt ∧
        s''.threads[tid]? = some (.exeDone gkt) ∧
        (th.holds = some gkt → ∃ b, mapGet s'.gok.errorBuses gkt.Tag = some b ∧
          s''.published = s'.published ++
            [{ task := gkt, bus := b,
               outcome := { Identifier := gkt.Identifier, Err := gkt.Execute () } }])) := by
  obtain ⟨c1, hnew, x1, p1, r1, d1⟩ := done_exec acts hd hrun h
  refine ⟨hnew, x1, c1, p1, r1, d1, ?_⟩
  intro tid th hth hexe
  exact exe_finish (hr.inv.after acts h) tid th hth hexe

/-- C6 on the schedule `afterShutdown` run from the state reached by
`shutdownSchedule`: task `b` stays in the queue and no control state changes. -/
theorem shutdown_terminal_witness :
    Reachable 2 1 (stateAfter shutdownSchedule 2 1) ∧
    controls (stateAfter shutdownSchedule 2 1) = [.SHUTDOWN] ∧
    exec afterShutdown (stateAfter shutdownSchedule 2 1) =
      some (stateAfter (shutdownSchedule ++ afterShutdown) 2 1) ∧
    (stateAfter shutdownSchedule 2 1).gok.gokitQueue.map Gokit.Identifier = ["b"] ∧
    (stateAfter (shutdownSchedule ++ afterShutdown) 2 1).gok.gokitQueue.map
      Gokit.Identifier = ["b"] ∧
    executions (stateAfter (shutdownSchedule ++ afterShutdown) 2 1) =
      executions (stateAfter shutdownSchedule 2 1) ∧
    controls (stateAfter (shutdownSchedule ++ afterShutdown) 2 1) =
      controls (stateAfter shutdownSchedule 2 1) :=
  ⟨⟨shutdownSchedule, rfl⟩, rfl, rfl, rfl, rfl,
    (shutdown_terminal 2 1 (stateAfter shutdownSchedule 2 1)
      (stateAfter (shutdownSchedule ++ afterShutdown) 2 1) afterShutdown
      ⟨shutdownSchedule, rfl⟩ (by decide) (by unfold noRun; decide) rfl).2.1,
    (shutdown_terminal 2 1 (stateAfter shutdownSchedule 2 1)
      (stateAfter (shutdownSchedule ++ afterShutdown) 2 1) afterShutdown
      ⟨shutdownSchedule, rfl⟩ (by decide) (by unfold noRun; decide) rfl).2.2.1⟩

/-- C10: for every transition, a paused dispatch goroutine either stays
paused or the transition is its receive of a restart signal; a pause or a
shutdown signal is consumed only by a dispatch goroutine standing at its outer
`select`, a restart signal only by a paused one; and a dispatch goroutine that
has returned either had returned before or has just received a shutdown signal
at its outer `select`.  Hence along every schedule a goroutine that was paused
and is no longer paused, in particular one that has returned, has received a
restart signal in between. -/
theorem control_state_machine :
    (∀ (s s' : System) (a : Action), step a s = some s' →
      (∀ tid, s.threads[tid]? = some .runPaused →
        s'.threads[tid]? = some .runPaused ∨
        (a = .recvRestart tid ∧ s'.threads[tid]? = some .runSelect ∧
          s'.gok.restart + 1 = s.gok.restart)) ∧
      (s'.gok.pause < s.gok.pause →
        ∃ tid, a = .recvPause tid ∧ s.threads[tid]? = some .runSelect) ∧
      (s'.gok.shutdown < s.gok.shutdown →
        ∃ tid, a = .recvShutdown tid ∧ s.threads[tid]? = some .runSelect) ∧
      (s'.gok.restart < s.gok.restart →
        ∃ tid, a = .recvRestart tid ∧ s.threads[tid]? = some .runPaused) ∧
      (∀ tid, s'.threads[tid]? = some .runDone →
        s.threads[tid]? = some .runDone ∨
        (a = .recvShutdown tid ∧ s.threads[tid]? = some .runSelect))) ∧
    (∀ (s s' : System) (acts : List Action) (tid : Nat), exec acts s = some s' →
      s.threads[tid]? = some .runPaused → s'.threads[tid]? ≠ some .runPaused →
      Action.recvRestart tid ∈ acts) := by
  refine ⟨fun s s' a h => ⟨fun tid hth => paused_step a h tid hth,
    (signal_consumption a h).1, (signal_consumption a h).2.1, (signal_consumption a h).2.2,
    fun tid hd => done_step a h tid hd⟩, ?_⟩
  intro s s' acts tid h hth hne
  by_contra hno
  exact hne (paused_until_restart acts tid h hth hno)

/-- C10 at the paused state reached by `pausedSchedule`: a call of
`Shutdown` leaves the dispatch goroutine paused and its signal cannot be
received. -/
theorem control_state_machine_witness :
    (stateAfter pausedSchedule 2 1).threads[1]? = some .runPaused ∧
    step Action.Shutdown (stateAfter pausedSchedule 2 1) =
      some (stateAfter (pausedSchedule ++ [Action.Shutdown]) 2 1) ∧
    (stateAfter (pausedSchedule ++ [Action.Shutdown]) 2 1).gok.shutdown = 1 ∧
    step (.recvShutdown 1) (stateAfter (pausedSchedule ++ [Action.Shutdown]) 2 1) = none ∧
    ((stateAfter (pausedSchedule ++ [Action.Shutdown]) 2 1).threads[1]? = some .runPaused ∨
      (Action.Shutdown = .recvRestart 1 ∧
        (stateAfter (pausedSchedule ++ [Action.Shutdown]) 2 1).threads[1]? = some .runSelect ∧
        (stateAfter (pausedSchedule ++ [Action.Shutdown]) 2 1).gok.restart + 1 =
          (stateAfter pausedSchedule 2 1).gok.restart)) :=
  ⟨rfl, rfl, rfl, rfl,
    (control_state_machine.1 (stateAfter pausedSchedule 2 1)
      (stateAfter (pausedSchedule ++ [Action.Shutdown]) 2 1) Action.Shutdown rfl).1 1 rfl⟩

/-! ## The scenario of the test -/

/-- The schedule `testGok` is enabled; at its end the four outcomes have been
published on the one bus, in the order `print-1` to `print-4`, each with a nil
error, the queue is empty and the three counters are back at zero. -/
theorem testGok_outcomes :
    (exec testGok (System.init 100 10)).map
      (fun s => (s.published.map (fun e => (e.bus, e.outcome.Identifier, e.outcome.Err)),
        s.gok.gokitQueue.length, s.gok.runningGokitNum, s.gok.waitingGokitNum,
        s.gok.semaphore)) =
      some ([(0, "print-1", none), (0, "print-2", none), (0, "print-3", none),
        (0, "print-4", none)], 0, 0, 0, 0) := by
  decide

/-- C1 (violated by the code): after `NewGok(2, 1)` the schedule `overAdmission`
is enabled, and at its end two tasks are executing at once: `runningGokitNum`
is 2 and `semaphore` is 2, both above `concurrency = 1`. -/
theorem overAdmission_exceeds_concurrency :
    (exec overAdmission (System.init 2 1)).map
      (fun s => (s.gok.concurrency, s.gok.runningGokitNum, s.gok.semaphore,
        s.threads.countP Thread.executing)) = some (1, 2, 2, 2) := by
  decide

/-- C7: a task built by `wrapGokitFunc` returns nil from `Execute` when the
function is nil and the function's own result otherwise; `Identifier` and
`Tag` return the two strings it was built with. -/
theorem wrapGokitFunc_methods (f : Option GokitFunc) (tag identifier : String) :
    (wrapGokitFunc none tag identifier).Execute () = none ∧
    (∀ g : GokitFunc, (wrapGokitFunc (some g) tag identifier).Execute () = g ()) ∧
    (wrapGokitFunc f tag identifier).Identifier = identifier ∧
    (wrapGokitFunc f tag identifier).Tag = tag ∧
    (wrapGokitFunc f "" "").Identifier = "" ∧ (wrapGokitFunc f "" "").Tag = "" :=
  ⟨rfl, fun _ => rfl, rfl, rfl, rfl, rfl⟩

/-- C9: from every state, calling `AddGokitFunc(f, tag, identifier)` and
calling `AddGokit(wrapGokitFunc(f, tag, identifier))` lead to the same state
after the locked block and under every continuation of the schedule, and run
to their return they give the same returned `errBus` and the same state
(registry, heap, queue, counters).  On `NewGok(1, 1)` the call returns bus 0,
registered for the tag, with one task in the queue and `waitingGokitNum = 1`. -/
theorem AddGokitFunc_eq_AddGokit (s : System) (f : Option GokitFunc)
    (tag identifier : String) (rest : List Action) :
    step (.AddGokitFunc f tag identifier) s =
      step (.AddGokit (wrapGokitFunc f tag identifier)) s ∧
    exec (.AddGokitFunc f tag identifier :: rest) s =
      exec (.AddGokit (wrapGokitFunc f tag identifier) :: rest) s ∧
    callAdd (.AddGokitFunc f tag identifier) s =
      callAdd (.AddGokit (wrapGokitFunc f tag identifier)) s ∧
    (callAdd (.AddGokitFunc none "t" "a") (System.init 1 1)).map
      (fun r => (r.1, r.2.gok.errorBuses, r.2.gok.gokitQueue.map Gokit.Identifier,
        r.2.gok.waitingGokitNum)) = some (0, [("t", 0)], ["a"], 1) := by
  have h : step (.AddGokitFunc f tag identifier) s =
      step (.AddGokit (wrapGokitFunc f tag identifier)) s := rfl
  refine ⟨h, by simp only [exec, h], ?_, by decide⟩
  simp only [callAdd, exec, h]

end GokSched
